import Mathlib

/-!
Verification of the twlint MCP bridge (`src/mcp-server/server.py` and
`src/mcp-server/debug_cli.py`).

The Python code is shallowly embedded as follows.

* Python strings are sequences of Unicode code points; we model them as
  `List Nat` (`PyStr`).  UTF-8 decoding of the captured byte streams is
  abstracted: a `ProcessResult` carries the decoded texts, and theorems that
  need it assume the text is in the image of UTF-8 decoding (`validText`:
  every code point is a Unicode scalar value, i.e. below 0x110000 and not a
  surrogate).
* `json.loads` is embedded from CPython's `json` package (`decoder.py`,
  `scanner.py`, and the C scanner used by default), operating on the
  remaining suffix of the document; an error carries the remaining suffix at
  the error position, from which the reported character index is recovered as
  `doc.length - rem.length`, matching the index CPython stores in
  `JSONDecodeError`.  Python's recursion limit (`RecursionError` on deeply
  nested documents) is not modelled: the fuel supplied by `jsonLoads` is
  large enough for every document.
* JSON floats are carried as their source lexemes (`PyJson.float tok`): the
  IEEE-754 binary64 value of a lexeme is not computed (floating point is not
  modelled); re-serialization emits the lexeme.  CPython re-serializes
  `repr(float(tok))`, which denotes the same numeric value.
* `json.dumps(value, indent=2)` is embedded from CPython's
  `json/encoder.py` pure-Python path (the C encoder is not used when
  `indent` is given), with `ensure_ascii=True` string escaping.
-/

namespace Twlint

/-- A Python string: its sequence of Unicode code points. -/
abbrev PyStr := List Nat

/-- Embed an ASCII Lean literal as a Python string. -/
def pyStr (s : String) : PyStr := s.data.map Char.toNat

/-- A code point is a Unicode scalar value (what UTF-8 decoding can yield). -/
def isScalar (c : Nat) : Bool := c < 0x110000 && !(0xd800 ≤ c && c ≤ 0xdfff)

/-- Text obtained by decoding bytes as UTF-8 consists of scalar values. -/
def validText (s : PyStr) : Bool := s.all isScalar

/-- JSON whitespace, `[ \t\n\r]` (`json.decoder.WHITESPACE`). -/
def isWs (c : Nat) : Bool := c = 32 || c = 9 || c = 10 || c = 13

/-- ASCII decimal digit. -/
def isDigit (c : Nat) : Bool := 48 ≤ c && c ≤ 57

/-- Value of one hexadecimal digit (the C scanner accepts exactly
`[0-9a-fA-F]`). -/
def hexVal (c : Nat) : Option Nat :=
  if 48 ≤ c && c ≤ 57 then some (c - 48)
  else if 97 ≤ c && c ≤ 102 then some (c - 87)
  else if 65 ≤ c && c ≤ 70 then some (c - 55)
  else none

/-- Value of a four-hex-digit escape `\uXXXX`. -/
def hex4Val (a b c d : Nat) : Option Nat :=
  match hexVal a, hexVal b, hexVal c, hexVal d with
  | some x, some y, some z, some w => some (((x * 16 + y) * 16 + z) * 16 + w)
  | _, _, _, _ => none

/-- The decoded form of a JSON document, as produced by `json.loads`:
`None`, `bool`, `int`, `float` (kept as its source lexeme), `str`, `list`,
`dict` (association list in insertion order). -/
inductive PyJson where
  | null : PyJson
  | bool (b : Bool) : PyJson
  | int (n : Int) : PyJson
  | float (tok : PyStr) : PyJson
  | str (s : PyStr) : PyJson
  | arr (elems : List PyJson) : PyJson
  | obj (pairs : List (PyStr × PyJson)) : PyJson

/-- Result of a scanner step: the parsed value with the remaining suffix of
the document, or an error message with the suffix standing at the reported
character index. -/
inductive JRes (α : Type) where
  | ok (v : α) (rest : List Nat) : JRes α
  | err (msg : String) (rem : List Nat) : JRes α

/-- `json.decoder`'s `BACKSLASH` table of short escapes. -/
def backslashMap (e : Nat) : Option Nat :=
  if e = 34 then some 34        -- \"
  else if e = 92 then some 92   -- \\
  else if e = 47 then some 47   -- \/
  else if e = 98 then some 8    -- \b
  else if e = 102 then some 12  -- \f
  else if e = 110 then some 10  -- \n
  else if e = 114 then some 13  -- \r
  else if e = 116 then some 9   -- \t
  else none

/-- `scanstring` (strict mode, as in the default C scanner): scan the body
of a JSON string.  `begRem` is the suffix starting at the opening quote
(used for the `Unterminated string` error position); `acc` holds the
decoded code points in reverse.  CPython's loop iterates; here one unit of
fuel is spent per iteration, and every iteration consumes at least one
character, so the `length + 1` fuel passed by the callers never runs out. -/
def scanString : Nat → List Nat → List Nat → List Nat → JRes PyStr
  | 0, _, s0, _ => .err "maximum recursion depth exceeded" s0
  | fuel + 1, begRem, s0, acc =>
    match s0 with
    | [] => .err "Unterminated string starting at" begRem
    | c :: t =>
      if c = 34 then .ok acc.reverse t
      else if c = 92 then
        match t with
        | [] => .err "Unterminated string starting at" begRem
        | e :: t2 =>
          if e = 117 then
            match t2 with
            | a :: b :: c3 :: d :: t3 =>
              match hex4Val a b c3 d with
              | none => .err "Invalid \\uXXXX escape" (e :: t2)
              | some u =>
                if 0xd800 ≤ u ∧ u ≤ 0xdbff then
                  match t3 with
                  | 92 :: 117 :: a2 :: b2 :: c2 :: d2 :: t4 =>
                    match hex4Val a2 b2 c2 d2 with
                    | none =>
                      .err "Invalid \\uXXXX escape" (117 :: a2 :: b2 :: c2 :: d2 :: t4)
                    | some u2 =>
                      if 0xdc00 ≤ u2 ∧ u2 ≤ 0xdfff then
                        -- 0x10000 + ((u - 0xd800) << 10 | (u2 - 0xdc00));
                        -- the shifted fields are disjoint, so `<<`/`|` is
                        -- plain arithmetic
                        scanString fuel begRem t4
                          ((0x10000 + ((u - 0xd800) * 1024 + (u2 - 0xdc00))) :: acc)
                      else
                        scanString fuel begRem
                          (92 :: 117 :: a2 :: b2 :: c2 :: d2 :: t4) (u :: acc)
                  | 92 :: 117 :: r4 => .err "Invalid \\uXXXX escape" (117 :: r4)
                  | other => scanString fuel begRem other (u :: acc)
                else scanString fuel begRem t3 (u :: acc)
            | _ => .err "Invalid \\uXXXX escape" (e :: t2)
          else
            match backslashMap e with
            | some ch => scanString fuel begRem t2 (ch :: acc)
            | none => .err "Invalid \\escape" (92 :: e :: t2)
      else if c < 32 then .err "Invalid control character at" (c :: t)
      else scanString fuel begRem t (c :: acc)

/-- The `(\.\d+)?` group of `json.scanner.NUMBER_RE`: a dot followed by at
least one digit, or nothing (the regex backtracks on a bare dot). -/
def numFrac : List Nat → List Nat × List Nat
  | 46 :: t =>
    (match t.takeWhile isDigit with
     | [] => ([], 46 :: t)
     | ds => (46 :: ds, t.dropWhile isDigit))
  | s => ([], s)

/-- The `[-+]?` inside the exponent group: an optional sign. -/
def numExpSign : List Nat → List Nat × List Nat
  | c :: r => if c = 43 || c = 45 then ([c], r) else ([], c :: r)
  | [] => ([], [])

/-- The `([eE][-+]?\d+)?` group of `NUMBER_RE`: `e`/`E`, an optional sign,
and at least one digit, or nothing (full backtracking otherwise). -/
def numExp : List Nat → List Nat × List Nat
  | e :: t =>
    if e = 101 || e = 69 then
      match (numExpSign t).2.takeWhile isDigit with
      | [] => ([], e :: t)
      | ds => (e :: ((numExpSign t).1 ++ ds), (numExpSign t).2.dropWhile isDigit)
    else ([], e :: t)
  | [] => ([], [])

/-- Fraction and exponent parts of `NUMBER_RE`
(`(-?(?:0|[1-9]\d*))(\.\d+)?([eE][-+]?\d+)?`), given the matched integer
part `ip`; returns the full lexeme, whether a fraction or exponent was
matched (then the lexeme denotes a float), and the remaining suffix. -/
def numAfterInt (ip : List Nat) (s : List Nat) : List Nat × Bool × List Nat :=
  let frp := numFrac s
  let exp := numExp frp.2
  (ip ++ frp.1 ++ exp.1, !(frp.1.isEmpty && exp.1.isEmpty), exp.2)

/-- `NUMBER_RE.match(string, idx)` on the remaining suffix: the matched
lexeme, whether it is a float, and the suffix after the match. -/
def matchNumber : List Nat → Option (List Nat × Bool × List Nat)
  | 45 :: s1 =>
    (match s1 with
     | 48 :: t => some (numAfterInt [45, 48] t)
     | c :: t =>
       if 49 ≤ c && c ≤ 57 then
         some (numAfterInt (45 :: c :: t.takeWhile isDigit) (t.dropWhile isDigit))
       else none
     | [] => none)
  | 48 :: t => some (numAfterInt [48] t)
  | c :: t =>
    if 49 ≤ c && c ≤ 57 then
      some (numAfterInt (c :: t.takeWhile isDigit) (t.dropWhile isDigit))
    else none
  | [] => none

/-- Numeric value of a string of decimal digit characters. -/
def natOfDigits (ds : List Nat) : Nat := ds.foldl (fun a c => 10 * a + (c - 48)) 0

/-- `int(lexeme)` for a lexeme matched by the integer part of `NUMBER_RE`. -/
def pyIntOfLex : List Nat → Int
  | 45 :: ds => -(natOfDigits ds : Int)
  | ds => (natOfDigits ds : Int)

/-- `d[key] = value` on a `dict` as an insertion-ordered association list:
an existing key keeps its position and gets the new value. -/
def dictInsert : List (PyStr × PyJson) → PyStr → PyJson → List (PyStr × PyJson)
  | [], k, v => [(k, v)]
  | (k', v') :: t, k, v =>
    if k' = k then (k', v) :: t else (k', v') :: dictInsert t k v

/-- `dict(pairs)`: later occurrences of a key overwrite earlier ones. -/
def dictOfPairs (pairs : List (PyStr × PyJson)) : List (PyStr × PyJson) :=
  pairs.foldl (fun d kv => dictInsert d kv.1 kv.2) []

mutual

/-- `py_make_scanner`'s `_scan_once` on the remaining suffix.  The fuel only
bounds recursion depth; `jsonLoads` supplies enough for any document (the
CPython recursion limit is not modelled). -/
def scanValue : Nat → List Nat → JRes PyJson
  | 0, s => .err "maximum recursion depth exceeded" s
  | fuel + 1, s =>
    match s with
    | [] => .err "Expecting value" []
    | c :: t =>
      if c = 34 then
        match scanString (t.length + 1) (34 :: t) t [] with
        | .ok str rest => .ok (.str str) rest
        | .err m r => .err m r
      else if c = 123 then
        match t.dropWhile isWs with
        | 125 :: t2 => .ok (.obj []) t2
        | 34 :: t2 => scanObjectBody fuel t2 []
        | r1 => .err "Expecting property name enclosed in double quotes" r1
      else if c = 91 then
        match t.dropWhile isWs with
        | 93 :: t2 => .ok (.arr []) t2
        | r1 => scanArrayBody fuel r1 []
      else if s.take 4 = pyStr "null" then .ok .null (s.drop 4)
      else if s.take 4 = pyStr "true" then .ok (.bool true) (s.drop 4)
      else if s.take 5 = pyStr "false" then .ok (.bool false) (s.drop 5)
      else
        match matchNumber s with
        | some (lex, isF, rest) =>
          if isF then .ok (.float lex) rest else .ok (.int (pyIntOfLex lex)) rest
        | none =>
          if s.take 3 = pyStr "NaN" then .ok (.float (pyStr "NaN")) (s.drop 3)
          else if s.take 8 = pyStr "Infinity" then .ok (.float (pyStr "Infinity")) (s.drop 8)
          else if s.take 9 = pyStr "-Infinity" then .ok (.float (pyStr "-Infinity")) (s.drop 9)
          else .err "Expecting value" s

/-- The loop of `json.decoder.JSONArray`, entered at the first element
(surrounding whitespace already skipped, the array known to be non-empty). -/
def scanArrayBody : Nat → List Nat → List PyJson → JRes PyJson
  | 0, s, _ => .err "maximum recursion depth exceeded" s
  | fuel + 1, s, acc =>
    match scanValue fuel s with
    | .err m r => .err m r
    | .ok v rest =>
      match rest.dropWhile isWs with
      | 93 :: t => .ok (.arr (acc ++ [v])) t
      | 44 :: t => scanArrayBody fuel (t.dropWhile isWs) (acc ++ [v])
      | r2 => .err "Expecting ',' delimiter" r2

/-- The loop of `json.decoder.JSONObject`, entered just after the opening
quote of a key; `dict(pairs)` is applied when the closing brace is found. -/
def scanObjectBody : Nat → List Nat → List (PyStr × PyJson) → JRes PyJson
  | 0, s, _ => .err "maximum recursion depth exceeded" s
  | fuel + 1, s, pairs =>
    match scanString (s.length + 1) (34 :: s) s [] with
    | .err m r => .err m r
    | .ok key rest =>
      match rest.dropWhile isWs with
      | 58 :: t3 =>
        (match scanValue fuel (t3.dropWhile isWs) with
         | .err m r => .err m r
         | .ok v rest2 =>
           match rest2.dropWhile isWs with
           | 125 :: t5 => .ok (.obj (dictOfPairs (pairs ++ [(key, v)]))) t5
           | 44 :: t5 =>
             (match t5.dropWhile isWs with
              | 34 :: t6 => scanObjectBody fuel t6 (pairs ++ [(key, v)])
              | r5 => .err "Expecting property name enclosed in double quotes" r5)
           | r4 => .err "Expecting ',' delimiter" r4)
      | r2 => .err "Expecting ':' delimiter" r2

end

/-- `json.loads`: skip leading whitespace, scan one document, require only
whitespace to follow.  An error is reported with the character index CPython
stores in `JSONDecodeError` (recovered from the remaining suffix). -/
def jsonLoads (s : List Nat) : Except (String × Nat) PyJson :=
  match scanValue (3 * s.length + 4) (s.dropWhile isWs) with
  | .err m rem => .error (m, s.length - rem.length)
  | .ok v rest =>
    match rest.dropWhile isWs with
    | [] => .ok v
    | r2 => .error ("Extra data", s.length - r2.length)

/-- `JSONDecodeError.lineno`: `doc.count('\n', 0, pos) + 1`. -/
def jsonLineno (doc : PyStr) (pos : Nat) : Nat := (doc.take pos).count 10 + 1

/-- `JSONDecodeError.colno`: `pos - doc.rfind('\n', 0, pos)` (with `rfind`
returning -1 when there is no newline), i.e. one more than the length of the
newline-free run ending at `pos`. -/
def jsonColno (doc : PyStr) (pos : Nat) : Nat :=
  ((doc.take pos).reverse.takeWhile (fun c => c != 10)).length + 1

/-- Decimal digit characters of `n`, most significant first; any
`fuel ≥ n` gives the exact digits (the fuel only bounds the recursion). -/
def natReprAux : Nat → Nat → List Nat
  | 0, _ => []
  | fuel + 1, n => if n = 0 then [] else natReprAux fuel (n / 10) ++ [n % 10 + 48]

/-- `str(n)` for a natural number. -/
def natRepr (n : Nat) : PyStr :=
  if n = 0 then [48] else natReprAux n n

/-- `str(n)` for a Python int. -/
def intRepr (n : Int) : PyStr :=
  if n < 0 then 45 :: natRepr n.natAbs else natRepr n.natAbs

/-- `str(e)` for `e : JSONDecodeError`:
`"{msg}: line {lineno} column {colno} (char {pos})"`. -/
def jsonErrStr (msg : String) (doc : PyStr) (pos : Nat) : PyStr :=
  pyStr msg ++ pyStr ": line " ++ natRepr (jsonLineno doc pos) ++
    pyStr " column " ++ natRepr (jsonColno doc pos) ++
    pyStr " (char " ++ natRepr pos ++ pyStr ")"

/-- `text.split('\n')` (never empty; `"".split('\n') == ['']`). -/
def pySplitNl : PyStr → List PyStr
  | [] => [[]]
  | c :: t =>
    if c = 10 then [] :: pySplitNl t
    else
      match pySplitNl t with
      | h :: r => (c :: h) :: r
      | [] => [[c]]

/-- The context lines printed by `debug_cli.run_cli_command_debug` for a
JSON parse error: the offending line (guarded by `lineno <= len(lines)`),
the previous line when `lineno > 1`, and the next line when
`lineno < len(lines)`. -/
def debugContextLines (output : PyStr) (lineno : Nat) : List PyStr :=
  let lines := pySplitNl output
  if lineno ≤ lines.length then
    [lines.getD (lineno - 1) []] ++
      (if 1 < lineno then [lines.getD (lineno - 2) []] else []) ++
      (if lineno < lines.length then [lines.getD lineno []] else [])
  else []

/-- `'\n' + '  ' * level`: the newline-and-indentation emitted by
`json.dumps(..., indent=2)`. -/
def nlIndent (lvl : Nat) : List Nat := 10 :: List.replicate (2 * lvl) 32

/-- One lowercase hexadecimal digit character. -/
def hexDigitChar (d : Nat) : Nat := if d < 10 then d + 48 else d + 87

/-- `'%04x' % n` for `n < 0x10000`. -/
def hexDigits4 (n : Nat) : List Nat :=
  [hexDigitChar (n / 4096 % 16), hexDigitChar (n / 256 % 16),
   hexDigitChar (n / 16 % 16), hexDigitChar (n % 16)]

/-- `json.encoder.py_encode_basestring_ascii` on one code point: short
escapes from `ESCAPE_DCT`, printable ASCII verbatim, `\uXXXX` otherwise
(a surrogate pair for code points above 0xFFFF). -/
def escChar (c : Nat) : List Nat :=
  if c = 34 then [92, 34]
  else if c = 92 then [92, 92]
  else if c = 8 then [92, 98]
  else if c = 12 then [92, 102]
  else if c = 10 then [92, 110]
  else if c = 13 then [92, 114]
  else if c = 9 then [92, 116]
  else if 32 ≤ c && c ≤ 126 then [c]
  else if c < 0x10000 then 92 :: 117 :: hexDigits4 c
  else
    (92 :: 117 :: hexDigits4 (0xd800 + (c - 0x10000) / 1024)) ++
      (92 :: 117 :: hexDigits4 (0xdc00 + (c - 0x10000) % 1024))

/-- The concatenated escaped body of a string (no quotes). -/
def escBody (s : PyStr) : List Nat := (s.map escChar).flatten

/-- `py_encode_basestring_ascii(s)`: the quoted, escaped form. -/
def encodeStrPy (s : PyStr) : List Nat :=
  34 :: escBody s ++ [34]

mutual

/-- The pure-Python `_make_iterencode` path of `json.dumps(v, indent=2)`
(the C encoder is not used when `indent` is given), concatenated. -/
def dumpsVal (lvl : Nat) : PyJson → List Nat
  | .null => pyStr "null"
  | .bool true => pyStr "true"
  | .bool false => pyStr "false"
  | .int n => intRepr n
  | .float tok => tok
  | .str s => encodeStrPy s
  | .arr [] => pyStr "[]"
  | .arr (x :: xs) =>
    91 :: (nlIndent (lvl + 1) ++ dumpsVal (lvl + 1) x ++ dumpsItems (lvl + 1) xs ++
      nlIndent lvl ++ [93])
  | .obj [] => pyStr "\x7b\x7d"
  | .obj (kv :: kvs) =>
    123 :: (nlIndent (lvl + 1) ++ dumpsPair (lvl + 1) kv ++ dumpsPairs (lvl + 1) kvs ++
      nlIndent lvl ++ [125])
termination_by structural v => v

/-- One `"key": value` item of an object. -/
def dumpsPair (lvl : Nat) : PyStr × PyJson → List Nat
  | (k, v) => encodeStrPy k ++ [58, 32] ++ dumpsVal lvl v
termination_by structural kv => kv

/-- The remaining elements of an array, each preceded by the separator
`','` and the newline-indent. -/
def dumpsItems (lvl : Nat) : List PyJson → List Nat
  | [] => []
  | x :: xs => 44 :: (nlIndent lvl ++ dumpsVal lvl x) ++ dumpsItems lvl xs
termination_by structural l => l

/-- The remaining items of an object, each preceded by the separator. -/
def dumpsPairs (lvl : Nat) : List (PyStr × PyJson) → List Nat
  | [] => []
  | kv :: kvs => 44 :: (nlIndent lvl ++ dumpsPair lvl kv) ++ dumpsPairs lvl kvs
termination_by structural l => l

end

/-- `json.dumps(v, indent=2)`. -/
def jsonDumps2 (v : PyJson) : PyStr := dumpsVal 0 v

/-!
## The server model (`src/mcp-server/server.py`)

The child process is an oracle `child : List PyStr → ProcessResult` mapping
the argument vector to the captured streams and exit code;
the list of command vectors actually spawned is returned alongside each
reply.  `ensure_cli_built` and UTF-8 decoding of the captured bytes are
abstracted (the oracle yields decoded texts); `CLI_PATH` is a parameter.
-/

/-- Exit code and fully captured output streams of one child process
(streams already decoded from UTF-8). -/
structure ProcessResult where
  returncode : Int
  stdout : PyStr
  stderr : PyStr

/-- `mcp.types.TextContent(type="text", text=...)`. -/
structure TextContent where
  text : PyStr
deriving DecidableEq

/-- A Python exception escaping `handle_call_tool` (raised outside its
`try` blocks).  Type-nonconformant argument values (e.g. a non-string
`css_path`) are modelled coarsely as `typeError`; no theorem below depends
on them, and missing keys are modelled exactly. -/
inductive PyExc where
  | keyError (k : PyStr)
  | typeError
deriving DecidableEq

/-- `cmd = ["node", str(CLI_PATH), "--json"] + args`. -/
def buildCmd (cliPath : PyStr) (args : List PyStr) : List PyStr :=
  [pyStr "node", cliPath, pyStr "--json"] ++ args

/-- `run_cli_command`, from `process.communicate()` onward: the
`RuntimeError("CLI error: ...")` raised inside the `try` body is caught by
`except Exception` and re-wrapped as `"Failed to run CLI: ..."`; a
`JSONDecodeError` is wrapped as `"Failed to parse CLI output as JSON: ..."`
(raised from the first `except` clause, hence not re-wrapped).  Returns the
outcome and the spawned command vector. -/
def run_cli_command (cliPath : PyStr) (child : List PyStr → ProcessResult)
    (args : List PyStr) : Except PyStr PyJson × List (List PyStr) :=
  let cmd := buildCmd cliPath args
  let pr := child cmd
  let res : Except PyStr PyJson :=
    if pr.stderr ≠ [] ∧ pr.returncode ≠ 0 ∧ pr.stdout = [] then
      .error (pyStr "Failed to run CLI: CLI error: " ++ pr.stderr)
    else
      match jsonLoads pr.stdout with
      | .ok v => .ok v
      | .error (m, pos) =>
        .error (pyStr "Failed to parse CLI output as JSON: " ++ jsonErrStr m pr.stdout pos)
  (res, [cmd])

/-- Key lookup in an insertion-ordered `dict`. -/
def lookupKey : List (PyStr × PyJson) → PyStr → Option PyJson
  | [], _ => none
  | (k', v) :: t, k => if k' = k then some v else lookupKey t k

/-- `value[key]` with a string key: `str(e)` of the raised exception on
failure (`str(KeyError(k))` is `repr(k)`, i.e. the key in single quotes). -/
def pyGetItem (v : PyJson) (k : PyStr) : Except PyStr PyJson :=
  match v with
  | .obj kvs =>
    match lookupKey kvs k with
    | some x => .ok x
    | none => .error (39 :: (k ++ [39]))
  | .arr _ => .error (pyStr "list indices must be integers or slices, not str")
  | .str _ => .error (pyStr "string indices must be integers, not 'str'")
  | .null => .error (pyStr "'NoneType' object is not subscriptable")
  | .bool _ => .error (pyStr "'bool' object is not subscriptable")
  | .int _ => .error (pyStr "'int' object is not subscriptable")
  | .float _ => .error (pyStr "'float' object is not subscriptable")

/-- `value.get(key, default)`; the dispatcher only applies it after a
successful subscript, so `value` is a mapping there. -/
def pyDictGet (v : PyJson) (k : PyStr) (d : PyJson) : PyJson :=
  match v with
  | .obj kvs => (lookupKey kvs k).getD d
  | _ => d

/-- Python truthiness of a decoded JSON value.  For a float the mantissa
digits decide it (`0.0` variants are falsy); a tiny-exponent lexeme that
underflows binary64 to zero is not modelled (the declared schema makes
`no_filter` a boolean, and no theorem below relies on float truthiness). -/
def pyTruthy : PyJson → Bool
  | .null => false
  | .bool b => b
  | .int n => n != 0
  | .float t =>
    !(((t.takeWhile (fun c => c != 101 && c != 69)).filter isDigit).all (· = 48))
  | .str s => !s.isEmpty
  | .arr l => !l.isEmpty
  | .obj l => !l.isEmpty

/-- Elements of a `files` list, all required to be strings to form a
command line. -/
def asStrList : List PyJson → Option (List PyStr)
  | [] => some []
  | .str s :: t => (asStrList t).map (s :: ·)
  | _ => none

/-- `handle_call_tool(name, arguments)`.  Required-field extraction happens
before the `try` block, so a missing key escapes as a `KeyError`; every
failure inside the `try` block becomes a single `"Error: ..."` text block. -/
def handle_call_tool (cliPath : PyStr) (child : List PyStr → ProcessResult)
    (name : PyStr) (arguments : List (PyStr × PyJson)) :
    Except PyExc (List TextContent × List (List PyStr)) :=
  if name = pyStr "check_directory" then
    match lookupKey arguments (pyStr "css_path") with
    | none => .error (.keyError (pyStr "css_path"))
    | some cssv =>
      match lookupKey arguments (pyStr "files") with
      | none => .error (.keyError (pyStr "files"))
      | some filesv =>
        let no_filter := pyTruthy ((lookupKey arguments (pyStr "no_filter")).getD (.bool false))
        match cssv, filesv with
        | .str css, .arr fl =>
          (match asStrList fl with
           | some files =>
             let cli_args := [pyStr "--json", pyStr "--path", css] ++
               (if no_filter then [pyStr "--no-filter"] else []) ++ files
             let rs := run_cli_command cliPath child cli_args
             match rs.1 with
             | .error e => .ok ([⟨pyStr "Error: " ++ e⟩], rs.2)
             | .ok result =>
               match pyGetItem result (pyStr "summary") with
               | .error m => .ok ([⟨pyStr "Error: " ++ m⟩], rs.2)
               | .ok _ =>
                 match pyGetItem result (pyStr "invalidClasses") with
                 | .error m => .ok ([⟨pyStr "Error: " ++ m⟩], rs.2)
                 | .ok _ =>
                   match pyGetItem result (pyStr "byFile") with
                   | .error m => .ok ([⟨pyStr "Error: " ++ m⟩], rs.2)
                   | .ok _ => .ok ([⟨jsonDumps2 result⟩], rs.2)
           | none => .error .typeError)
        | _, _ => .error .typeError
  else if name = pyStr "check_file" then
    match lookupKey arguments (pyStr "css_path") with
    | none => .error (.keyError (pyStr "css_path"))
    | some cssv =>
      match lookupKey arguments (pyStr "file") with
      | none => .error (.keyError (pyStr "file"))
      | some filev =>
        match cssv, filev with
        | .str css, .str file =>
          let rs := run_cli_command cliPath child [pyStr "--json", pyStr "--path", css, file]
          (match rs.1 with
           | .error e => .ok ([⟨pyStr "Error: " ++ e⟩], rs.2)
           | .ok result =>
             match pyGetItem result (pyStr "summary") with
             | .error m => .ok ([⟨pyStr "Error: " ++ m⟩], rs.2)
             | .ok _ =>
               -- by_file = result.get("byFile", []) has no observable effect
               .ok ([⟨jsonDumps2 result⟩], rs.2))
        | _, _ => .error .typeError
  else
    .ok ([⟨pyStr "Unknown tool: " ++ name⟩], [])

/-!
## Well-formedness of decoded values

These predicates characterize what `jsonLoads` can produce from valid text;
they are what the round-trip theorem needs.
-/

/-- No high surrogate immediately followed by a low surrogate (such a pair
would re-combine on re-parsing). -/
def noHiLo : List Nat → Bool
  | a :: b :: t =>
    !(0xd800 ≤ a && a ≤ 0xdbff && 0xdc00 ≤ b && b ≤ 0xdfff) && noHiLo (b :: t)
  | _ => true

/-- A decoded string: code points below 0x110000, no adjacent
high-low surrogate pair. -/
def wfStr (s : PyStr) : Bool := s.all (· < 0x110000) && noHiLo s

/-- A float lexeme the scanner can produce: a full `NUMBER_RE` match with a
fraction or exponent, or one of the constants. -/
def isFloatTok (t : PyStr) : Bool :=
  (match matchNumber t with
   | some (lex, isF, rest) => lex == t && isF && rest.isEmpty
   | none => false) ||
  t == pyStr "NaN" || t == pyStr "Infinity" || t == pyStr "-Infinity"

/-- Pairwise-distinct keys of an association list. -/
def nodupKeys : List (PyStr × PyJson) → Bool
  | [] => true
  | (k, _) :: t => !(t.any (fun kv => kv.1 == k)) && nodupKeys t

mutual

/-- A value in the image of `jsonLoads` on valid text. -/
def wfJ : PyJson → Bool
  | .null => true
  | .bool _ => true
  | .int _ => true
  | .float t => isFloatTok t
  | .str s => wfStr s
  | .arr l => wfArr l
  | .obj kvs => nodupKeys kvs && wfObj kvs
termination_by structural v => v

/-- All elements well-formed. -/
def wfArr : List PyJson → Bool
  | [] => true
  | x :: t => wfJ x && wfArr t
termination_by structural l => l

/-- All keys and values well-formed. -/
def wfObj : List (PyStr × PyJson) → Bool
  | [] => true
  | (k, v) :: t => wfStr k && wfJ v && wfObj t
termination_by structural l => l

end

/-- A suffix at which the maximal-munch scan of a number or keyword cannot
continue: empty, or starting with one of the characters (`,`, newline, `]`,
`}`) that the pretty-printer places after an element. -/
def DelimOk : List Nat → Prop
  | [] => True
  | c :: _ => c = 44 ∨ c = 10 ∨ c = 93 ∨ c = 125

/-- Shape of the `-?(?:0|[1-9]\d*)` group of `NUMBER_RE` (sign split off). -/
def IntPartOk (ip : List Nat) : Prop :=
  ip = [48] ∨ ∃ c ds, ip = c :: ds ∧ 49 ≤ c ∧ c ≤ 57 ∧ ∀ d ∈ ds, isDigit d = true

/-- Shape of the `(\.\d+)?` group. -/
def FracOk (fr : List Nat) : Prop :=
  fr = [] ∨ ∃ ds, fr = 46 :: ds ∧ ds ≠ [] ∧ ∀ d ∈ ds, isDigit d = true

/-- Shape of the `([eE][-+]?\d+)?` group. -/
def ExpOk (ex : List Nat) : Prop :=
  ex = [] ∨ ∃ e sg ds, ex = e :: (sg ++ ds) ∧ (e = 101 ∨ e = 69) ∧
    (sg = [] ∨ sg = [43] ∨ sg = [45]) ∧ ds ≠ [] ∧ ∀ d ∈ ds, isDigit d = true

/-- A lexeme matched in full by `NUMBER_RE` with a fraction or exponent
present: exactly the numeric float lexemes. -/
def FloatShape (t : List Nat) : Prop :=
  ∃ sg ip fr ex, t = sg ++ ip ++ fr ++ ex ∧ (sg = [] ∨ sg = [45]) ∧
    IntPartOk ip ∧ FracOk fr ∧ ExpOk ex ∧ (fr ≠ [] ∨ ex ≠ [])

mutual

/-- Fuel sufficient for `scanValue` on the serialized form of a value. -/
def sizeJ : PyJson → Nat
  | .null => 1
  | .bool _ => 1
  | .int _ => 1
  | .float _ => 1
  | .str _ => 1
  | .arr l => 2 + sizeList l
  | .obj l => 2 + sizePairs l
termination_by structural v => v

/-- Fuel sufficient for the `scanArrayBody` loop over the serialized
elements. -/
def sizeList : List PyJson → Nat
  | [] => 0
  | x :: xs => 1 + sizeJ x + sizeList xs
termination_by structural l => l

/-- Fuel sufficient for the `scanObjectBody` loop over the serialized
items. -/
def sizePairs : List (PyStr × PyJson) → Nat
  | [] => 0
  | kv :: kvs => 1 + sizeJ kv.2 + sizePairs kvs
termination_by structural l => l

end

/-- The first (most recently appended) code point of the accumulator is a
high surrogate. -/
def headHi : List Nat → Prop
  | a :: _ => 0xd800 ≤ a ∧ a ≤ 0xdbff
  | [] => False

/-- The suffix starts with a `\uXXXX` escape denoting a low surrogate. -/
def loEsc (s : List Nat) : Prop :=
  ∃ a b c d t u, s = 92 :: 117 :: a :: b :: c :: d :: t ∧
    hex4Val a b c d = some u ∧ 0xdc00 ≤ u ∧ u ≤ 0xdfff

/-!
## Helper lemmas: takeWhile/dropWhile over concatenations, decimal digits
-/

theorem takeWhile_append_of_all {p : Nat → Bool} {xs ys : List Nat}
    (h : ∀ a ∈ xs, p a = true) :
    (xs ++ ys).takeWhile p = xs ++ ys.takeWhile p := by
  rw [List.takeWhile_append, if_pos]
  rw [List.takeWhile_eq_self_iff.mpr h]

theorem dropWhile_append_of_all {p : Nat → Bool} {xs ys : List Nat}
    (h : ∀ a ∈ xs, p a = true) :
    (xs ++ ys).dropWhile p = ys.dropWhile p := by
  rw [List.dropWhile_append, if_pos]
  rw [List.dropWhile_eq_nil_iff.mpr h]
  simp

theorem takeWhile_cons_neg {p : Nat → Bool} {c : Nat} {t : List Nat}
    (h : p c = false) : (c :: t).takeWhile p = [] := by
  simp [List.takeWhile_cons, h]

theorem dropWhile_cons_neg {p : Nat → Bool} {c : Nat} {t : List Nat}
    (h : p c = false) : (c :: t).dropWhile p = c :: t := by
  simp [List.dropWhile_cons, h]

theorem natReprAux_eq : ∀ (fuel n : Nat), n ≤ fuel →
    natReprAux fuel n = ((Nat.digits 10 n).reverse).map (· + 48)
  | 0, n, h => by
    interval_cases n
    simp [natReprAux]
  | fuel + 1, n, h => by
    by_cases h0 : n = 0
    · subst h0; simp [natReprAux]
    · rw [natReprAux, if_neg h0]
      rw [natReprAux_eq fuel (n / 10) (by omega)]
      rw [Nat.digits_def' (by norm_num : (1:Nat) < 10) (Nat.pos_of_ne_zero h0)]
      simp

theorem natRepr_eq_digits (n : Nat) :
    natRepr n = if n = 0 then [48] else ((Nat.digits 10 n).reverse).map (· + 48) := by
  unfold natRepr
  split
  · rfl
  · exact natReprAux_eq n n le_rfl

theorem natRepr_ne_nil (n : Nat) : natRepr n ≠ [] := by
  rw [natRepr_eq_digits]
  split
  · simp
  · simp [Nat.digits_ne_nil_iff_ne_zero, *]

theorem natRepr_all_digits (n : Nat) : ∀ c ∈ natRepr n, isDigit c = true := by
  intro c hc
  rw [natRepr_eq_digits] at hc
  split at hc
  · simp at hc
    simp [hc, isDigit]
  · simp only [List.mem_map, List.mem_reverse] at hc
    obtain ⟨d, hd, rfl⟩ := hc
    have : d < 10 := Nat.digits_lt_base (by norm_num) hd
    simp [isDigit]
    omega

theorem isDigit_iff {c : Nat} : isDigit c = true ↔ 48 ≤ c ∧ c ≤ 57 := by
  simp [isDigit]

theorem natRepr_head (n : Nat) (h : n ≠ 0) :
    ∃ c t, natRepr n = c :: t ∧ 49 ≤ c ∧ c ≤ 57 ∧ ∀ x ∈ t, isDigit x = true := by
  have hne : Nat.digits 10 n ≠ [] := Nat.digits_ne_nil_iff_ne_zero.mpr h
  obtain ⟨l, a, hl⟩ := List.eq_nil_or_concat (Nat.digits 10 n) |>.resolve_left hne
  have hlast : (Nat.digits 10 n).getLast hne ≠ 0 := Nat.getLast_digit_ne_zero 10 h
  have hsome : (Nat.digits 10 n).getLast? = some a := by
    rw [hl, List.concat_eq_append]; exact List.getLast?_concat _
  have hsome2 : (Nat.digits 10 n).getLast? = some ((Nat.digits 10 n).getLast hne) :=
    List.getLast?_eq_getLast _ hne
  have ha : a ≠ 0 := by
    rw [hsome] at hsome2
    have := Option.some.inj hsome2
    omega
  have ha10 : a < 10 := by
    refine @Nat.digits_lt_base 10 n a (by norm_num) ?_
    rw [hl]; simp [List.concat_eq_append]
  refine ⟨a + 48, l.reverse.map (· + 48), ?_, by omega, by omega, ?_⟩
  · rw [natRepr_eq_digits, if_neg h, hl]
    simp [List.concat_eq_append]
  · intro x hx
    simp only [List.mem_map, List.mem_reverse] at hx
    obtain ⟨d, hd, rfl⟩ := hx
    have : d < 10 := by
      refine @Nat.digits_lt_base 10 n d (by norm_num) ?_
      rw [hl]; simp [List.concat_eq_append, hd]
    rw [isDigit_iff]
    omega

theorem foldl_base10_reverse (ds : List Nat) (a : Nat) :
    ds.reverse.foldl (fun x d => 10 * x + d) a =
      a * 10 ^ ds.length + Nat.ofDigits 10 ds := by
  induction ds generalizing a with
  | nil => simp [Nat.ofDigits]
  | cons d t ih =>
    simp only [List.reverse_cons, List.foldl_append, List.foldl_cons, List.foldl_nil,
      List.length_cons, Nat.ofDigits_cons, ih]
    ring

theorem natOfDigits_natRepr (n : Nat) : natOfDigits (natRepr n) = n := by
  rw [natRepr_eq_digits]
  unfold natOfDigits
  split
  · simp [*]
  · rw [List.foldl_map]
    have hfun : (fun (a d : Nat) => 10 * a + (d + 48 - 48)) = fun a d => 10 * a + d := by
      funext a d; omega
    rw [hfun, foldl_base10_reverse]
    simp [Nat.ofDigits_digits]

theorem pyIntOfLex_intRepr (n : Int) : pyIntOfLex (intRepr n) = n := by
  unfold intRepr
  split
  · rw [pyIntOfLex, natOfDigits_natRepr]
    omega
  · have h0 : ¬ n < 0 := by assumption
    rcases h : natRepr n.natAbs with _ | ⟨c, t⟩
    · exact absurd h (natRepr_ne_nil _)
    · have hc : isDigit c = true := natRepr_all_digits _ c (h ▸ List.mem_cons_self c t)
      have hc' : c ≠ 45 := by simp [isDigit] at hc; omega
      rw [← h]
      have : pyIntOfLex (natRepr n.natAbs) = (natOfDigits (natRepr n.natAbs) : Int) := by
        rw [h, pyIntOfLex.eq_def]
        simp [hc']
      rw [this, natOfDigits_natRepr]
      omega

theorem delim_head_facts {c : Nat} {t : List Nat} (h : DelimOk (c :: t)) :
    isDigit c = false ∧ c ≠ 46 ∧ c ≠ 101 ∧ c ≠ 69 ∧ c ≠ 43 ∧ c ≠ 45 ∧
      isWs c = (c = 10) ∧ c ≠ 34 := by
  rcases h with h | h | h | h <;> subst h <;> simp [isDigit, isWs]

theorem takeWhile_digit_delim {r : List Nat} (h : DelimOk r) :
    r.takeWhile isDigit = [] := by
  cases r with
  | nil => rfl
  | cons c t => exact takeWhile_cons_neg (delim_head_facts h).1

theorem dropWhile_digit_delim {r : List Nat} (h : DelimOk r) :
    r.dropWhile isDigit = r := by
  cases r with
  | nil => rfl
  | cons c t => exact dropWhile_cons_neg (delim_head_facts h).1

theorem numFrac_none {s : List Nat} (h : ∀ c, s.head? = some c → c ≠ 46) :
    numFrac s = ([], s) := by
  cases s with
  | nil => rfl
  | cons c t =>
    have hc : c ≠ 46 := h c rfl
    rw [numFrac.eq_def]
    split
    · rename_i heq
      rw [List.cons.injEq] at heq
      exact absurd heq.1 hc
    · rfl

theorem numExp_none {s : List Nat} (h : ∀ c, s.head? = some c → c ≠ 101 ∧ c ≠ 69) :
    numExp s = ([], s) := by
  cases s with
  | nil => rfl
  | cons c t =>
    have hc := h c rfl
    rw [numExp]
    rw [if_neg]
    simp [hc.1, hc.2]

theorem numExpSign_nosign {c : Nat} {r : List Nat} (h43 : c ≠ 43) (h45 : c ≠ 45) :
    numExpSign (c :: r) = ([], c :: r) := by
  rw [numExpSign, if_neg]
  simp [h43, h45]

theorem takeWhile_all_append_neg {p : Nat → Bool} {xs ys : List Nat}
    (hall : ∀ a ∈ xs, p a = true) (hhead : ∀ c, ys.head? = some c → p c = false) :
    (xs ++ ys).takeWhile p = xs ∧ (xs ++ ys).dropWhile p = ys := by
  constructor
  · rw [takeWhile_append_of_all hall]
    cases ys with
    | nil => simp
    | cons c t => rw [takeWhile_cons_neg (hhead c rfl), List.append_nil]
  · rw [dropWhile_append_of_all hall]
    cases ys with
    | nil => simp
    | cons c t => rw [dropWhile_cons_neg (hhead c rfl)]

theorem numFrac_frac {ds r : List Nat} (hne : ds ≠ [])
    (hTW : (ds ++ r).takeWhile isDigit = ds)
    (hDW : (ds ++ r).dropWhile isDigit = r) :
    numFrac (46 :: (ds ++ r)) = (46 :: ds, r) := by
  rw [numFrac, hTW, hDW]
  cases ds with
  | nil => exact absurd rfl hne
  | cons d dt => rfl

theorem numExp_exp {e : Nat} {sg ds r : List Nat} (he : e = 101 ∨ e = 69)
    (hsg : sg = [] ∨ sg = [43] ∨ sg = [45]) (hne : ds ≠ [])
    (hds : ∀ d ∈ ds, isDigit d = true)
    (hTW : (ds ++ r).takeWhile isDigit = ds)
    (hDW : (ds ++ r).dropWhile isDigit = r) :
    numExp (e :: (sg ++ (ds ++ r))) = (e :: (sg ++ ds), r) := by
  have hsgn : numExpSign (sg ++ (ds ++ r)) = (sg, ds ++ r) := by
    rcases hsg with rfl | rfl | rfl
    · simp only [List.nil_append]
      cases ds with
      | nil => exact absurd rfl hne
      | cons d dt =>
        have hd : isDigit d = true := hds d (List.mem_cons_self d dt)
        have h43 : d ≠ 43 := by rw [isDigit_iff] at hd; omega
        have h45 : d ≠ 45 := by rw [isDigit_iff] at hd; omega
        rw [List.cons_append]
        exact numExpSign_nosign h43 h45
    · rw [List.cons_append, numExpSign, if_pos (by simp)]
      simp
    · rw [List.cons_append, numExpSign, if_pos (by simp)]
      simp
  rw [numExp]
  rw [if_pos (by rcases he with h | h <;> simp [h])]
  rw [hsgn]
  simp only [hTW, hDW]

theorem delim_head_ne {r : List Nat} (h : DelimOk r) :
    ∀ c, r.head? = some c → c ≠ 46 ∧ c ≠ 101 ∧ c ≠ 69 := by
  intro c hc
  cases r with
  | nil => simp at hc
  | cons a t =>
    simp at hc
    subst hc
    rcases h with h | h | h | h <;> subst h <;> omega

theorem numAfterInt_delim (ip : List Nat) {r : List Nat} (h : DelimOk r) :
    numAfterInt ip r = (ip, false, r) := by
  have h1 : numFrac r = ([], r) := numFrac_none (fun c hc => (delim_head_ne h c hc).1)
  have h2 : numExp r = ([], r) := numExp_none (fun c hc => (delim_head_ne h c hc).2)
  simp [numAfterInt, h1, h2]

theorem fx_head_not_digit {fr ex r : List Nat} (hfr : FracOk fr) (hex : ExpOk ex)
    (hr : DelimOk r) : ∀ c, (fr ++ (ex ++ r)).head? = some c → isDigit c = false := by
  intro c hc
  rcases hfr with rfl | ⟨ds, rfl, hne, hds⟩
  · rcases hex with rfl | ⟨e, sg, ds, rfl, he, hsg, hne, hds⟩
    · simp only [List.nil_append] at hc
      cases r with
      | nil => simp at hc
      | cons a t =>
        simp at hc; subst hc
        rcases hr with h | h | h | h <;> subst h <;> simp [isDigit]
    · simp at hc
      subst hc
      rcases he with rfl | rfl <;> simp [isDigit]
  · simp at hc
    subst hc
    simp [isDigit]

theorem numAfterInt_eval {fr ex r : List Nat} (hfr : FracOk fr) (hex : ExpOk ex)
    (hr : DelimOk r) (ip : List Nat) :
    numAfterInt ip (fr ++ (ex ++ r)) =
      (ip ++ fr ++ ex, !(fr.isEmpty && ex.isEmpty), r) := by
  have hexr : ∀ c, (ex ++ r).head? = some c → c ≠ 46 := by
    intro c hc
    rcases hex with rfl | ⟨e, sg, ds, rfl, he, hsg, hne, hds⟩
    · simp only [List.nil_append] at hc
      exact (delim_head_ne hr c hc).1
    · simp at hc; subst hc; rcases he with rfl | rfl <;> omega
  have h1 : numFrac (fr ++ (ex ++ r)) = (fr, ex ++ r) := by
    rcases hfr with rfl | ⟨ds, rfl, hne, hds⟩
    · simp only [List.nil_append]
      exact numFrac_none hexr
    · have hTW := @takeWhile_all_append_neg isDigit ds (ex ++ r) hds
        (fun c hc => by
          rcases hex with rfl | ⟨e, sg, ds2, rfl, he, hsg, hne2, hds2⟩
          · simp only [List.nil_append] at hc
            cases r with
            | nil => simp at hc
            | cons a t =>
              simp at hc; subst hc
              rcases hr with h | h | h | h <;> subst h <;> simp [isDigit]
          · simp at hc; subst hc
            rcases he with rfl | rfl <;> simp [isDigit])
      rw [List.cons_append]
      exact numFrac_frac hne hTW.1 hTW.2
  have h2 : numExp (ex ++ r) = (ex, r) := by
    rcases hex with rfl | ⟨e, sg, ds, rfl, he, hsg, hne, hds⟩
    · simp only [List.nil_append]
      exact numExp_none (fun c hc =>
        ⟨(delim_head_ne hr c hc).2.1, (delim_head_ne hr c hc).2.2⟩)
    · have hTW := @takeWhile_all_append_neg isDigit ds r hds
        (fun c hc => by
          cases r with
          | nil => simp at hc
          | cons a t =>
            simp at hc; subst hc
            rcases hr with h | h | h | h <;> subst h <;> simp [isDigit])
      rw [List.cons_append, List.append_assoc]
      exact numExp_exp he hsg hne hds hTW.1 hTW.2
  simp only [numAfterInt, h1, h2]

theorem matchNumber_cons_digit {c : Nat} (t : List Nat) (h1 : 49 ≤ c) (h2 : c ≤ 57) :
    matchNumber (c :: t) =
      some (numAfterInt (c :: t.takeWhile isDigit) (t.dropWhile isDigit)) := by
  interval_cases c <;> simp [matchNumber]

theorem matchNumber_natRepr {n : Nat} {r : List Nat} (h : DelimOk r) :
    matchNumber (natRepr n ++ r) = some (natRepr n, false, r) := by
  by_cases h0 : n = 0
  · subst h0
    have h48 : natRepr 0 = [48] := rfl
    rw [h48]
    show matchNumber (48 :: r) = _
    rw [matchNumber]
    rw [numAfterInt_delim _ h]
  · obtain ⟨c, t, he, hc1, hc2, ht⟩ := natRepr_head n h0
    rw [he, List.cons_append, matchNumber_cons_digit _ hc1 hc2,
      takeWhile_append_of_all ht, takeWhile_digit_delim h,
      dropWhile_append_of_all ht, dropWhile_digit_delim h]
    rw [List.append_nil, numAfterInt_delim _ h]

theorem matchNumber_floatShape {t r : List Nat} (h : FloatShape t) (hr : DelimOk r) :
    matchNumber (t ++ r) = some (t, true, r) := by
  obtain ⟨sg, ip, fr, ex, rfl, hsg, hip, hfr, hex, hne⟩ := h
  have hflag : (!(fr.isEmpty && ex.isEmpty)) = true := by
    rcases hne with hne | hne <;> simp [List.isEmpty_iff, hne]
  have hfx := fx_head_not_digit hfr hex hr
  have heval := fun ip' => numAfterInt_eval hfr hex hr ip'
  rcases hsg with rfl | rfl
  · rcases hip with rfl | ⟨c, ds, rfl, hc1, hc2, hds⟩
    · have hsh : ([] ++ [48] ++ fr ++ ex) ++ r = 48 :: (fr ++ (ex ++ r)) := by simp
      rw [hsh]
      rw [matchNumber]
      rw [heval [48], hflag]
      simp
    · have hsh : ([] ++ (c :: ds) ++ fr ++ ex) ++ r = c :: (ds ++ (fr ++ (ex ++ r))) := by
        simp
      rw [hsh, matchNumber_cons_digit _ hc1 hc2]
      have hTW := @takeWhile_all_append_neg isDigit ds (fr ++ (ex ++ r)) hds hfx
      rw [hTW.1, hTW.2, heval (c :: ds), hflag]
      simp
  · rcases hip with rfl | ⟨c, ds, rfl, hc1, hc2, hds⟩
    · have hsh : ([45] ++ [48] ++ fr ++ ex) ++ r = 45 :: 48 :: (fr ++ (ex ++ r)) := by simp
      rw [hsh]
      rw [matchNumber]
      show some (numAfterInt [45, 48] (fr ++ (ex ++ r))) = _
      rw [heval [45, 48], hflag]
      simp
    · have hsh : ([45] ++ (c :: ds) ++ fr ++ ex) ++ r =
          45 :: c :: (ds ++ (fr ++ (ex ++ r))) := by simp
      rw [hsh]
      have hTW := @takeWhile_all_append_neg isDigit ds (fr ++ (ex ++ r)) hds hfx
      interval_cases c <;>
        (simp only [matchNumber]
         rw [hTW.1, hTW.2, heval, hflag]
         simp)

theorem numExpSign_cases (t : List Nat) :
    (numExpSign t).1 = [] ∨ (numExpSign t).1 = [43] ∨ (numExpSign t).1 = [45] := by
  cases t with
  | nil => simp [numExpSign]
  | cons c r =>
    rw [numExpSign]
    by_cases h : c = 43 ∨ c = 45
    · rw [if_pos (by rcases h with h | h <;> simp [h])]
      rcases h with rfl | rfl <;> simp
    · rw [if_neg (by push_neg at h; simp [h.1, h.2])]
      simp

theorem numFrac_shape (s : List Nat) : FracOk (numFrac s).1 := by
  rw [numFrac.eq_def]
  split
  · rename_i t
    rcases htw : t.takeWhile isDigit with _ | ⟨d, dt⟩
    · simp [htw, FracOk]
    · simp only [htw]
      right
      refine ⟨d :: dt, rfl, by simp, ?_⟩
      intro x hx
      exact List.mem_takeWhile_imp (htw ▸ hx)
  · simp [FracOk]

theorem numExp_shape (s : List Nat) : ExpOk (numExp s).1 := by
  cases s with
  | nil => simp [numExp, ExpOk]
  | cons e t =>
    rw [numExp]
    by_cases he : e = 101 ∨ e = 69
    · rw [if_pos (by rcases he with h | h <;> simp [h])]
      rcases htw : (numExpSign t).2.takeWhile isDigit with _ | ⟨d, dt⟩
      · simp [ExpOk]
      · simp only
        right
        refine ⟨e, (numExpSign t).1, d :: dt, rfl, he, numExpSign_cases t, by simp, ?_⟩
        intro x hx
        exact List.mem_takeWhile_imp (htw ▸ hx)
    · rw [if_neg (by push_neg at he; simp [he.1, he.2])]
      simp [ExpOk]

theorem numAfterInt_fst (ip s : List Nat) :
    (numAfterInt ip s).1 = ip ++ (numFrac s).1 ++ (numExp (numFrac s).2).1 := rfl

theorem numAfterInt_flag (ip s : List Nat) :
    (numAfterInt ip s).2.1 =
      !((numFrac s).1.isEmpty && (numExp (numFrac s).2).1.isEmpty) := rfl

theorem numAfterInt_shape (ip s : List Nat) :
    ∀ lex isF rest, numAfterInt ip s = (lex, isF, rest) → isF = true →
      ∃ fr ex, lex = ip ++ fr ++ ex ∧ FracOk fr ∧ ExpOk ex ∧ (fr ≠ [] ∨ ex ≠ []) := by
  intro lex isF rest h hF
  refine ⟨(numFrac s).1, (numExp (numFrac s).2).1, ?_, numFrac_shape s, numExp_shape _, ?_⟩
  · have := numAfterInt_fst ip s
    rw [h] at this
    exact this
  · have : isF = (numAfterInt ip s).2.1 := by rw [h]
    rw [numAfterInt_flag] at this
    rw [hF] at this
    rcases hfr : (numFrac s).1.isEmpty with _ | _ <;>
      rcases hex2 : (numExp (numFrac s).2).1.isEmpty with _ | _ <;>
        simp [hfr, hex2] at this ⊢ <;> simp_all [List.isEmpty_iff]

theorem matchNumber_shape {s lex : List Nat} {isF : Bool} {rest : List Nat}
    (h : matchNumber s = some (lex, isF, rest)) (hF : isF = true) : FloatShape lex := by
  rw [matchNumber.eq_def] at h
  split at h
  · -- s = 45 :: s1
    split at h
    · -- s1 = 48 :: t
      rename_i t
      rcases hnum : numAfterInt [45, 48] t with ⟨lex', isF', rest'⟩
      rw [hnum] at h
      simp only [Option.some.injEq, Prod.mk.injEq] at h
      obtain ⟨rfl, rfl, rfl⟩ := h
      obtain ⟨fr, ex, rfl, hfr, hex, hne⟩ := numAfterInt_shape [45, 48] t _ _ _ hnum hF
      exact ⟨[45], [48], fr, ex, by simp, Or.inr rfl, Or.inl rfl, hfr, hex, hne⟩
    · -- s1 = c :: t with guard
      rename_i c t hne48
      split at h
      · rename_i hguard
        simp only [Bool.and_eq_true, decide_eq_true_eq] at hguard
        rcases hnum : numAfterInt (45 :: c :: t.takeWhile isDigit) (t.dropWhile isDigit)
          with ⟨lex', isF', rest'⟩
        rw [hnum] at h
        simp only [Option.some.injEq, Prod.mk.injEq] at h
        obtain ⟨rfl, rfl, rfl⟩ := h
        obtain ⟨fr, ex, rfl, hfr, hex, hne⟩ :=
          numAfterInt_shape (45 :: c :: t.takeWhile isDigit) (t.dropWhile isDigit) _ _ _
            hnum hF
        refine ⟨[45], c :: t.takeWhile isDigit, fr, ex, by simp, Or.inr rfl, ?_, hfr, hex, hne⟩
        exact Or.inr ⟨c, t.takeWhile isDigit, rfl, hguard.1, hguard.2,
          fun d hd => List.mem_takeWhile_imp hd⟩
      · simp at h
    · simp at h
  · -- s = 48 :: t
    rename_i t
    rcases hnum : numAfterInt [48] t with ⟨lex', isF', rest'⟩
    rw [hnum] at h
    simp only [Option.some.injEq, Prod.mk.injEq] at h
    obtain ⟨rfl, rfl, rfl⟩ := h
    obtain ⟨fr, ex, rfl, hfr, hex, hne⟩ := numAfterInt_shape [48] t _ _ _ hnum hF
    exact ⟨[], [48], fr, ex, by simp, Or.inl rfl, Or.inl rfl, hfr, hex, hne⟩
  · -- s = c :: t with guard
    rename_i c t hne45 hne48
    split at h
    · rename_i hguard
      simp only [Bool.and_eq_true, decide_eq_true_eq] at hguard
      rcases hnum : numAfterInt (c :: t.takeWhile isDigit) (t.dropWhile isDigit)
        with ⟨lex', isF', rest'⟩
      rw [hnum] at h
      simp only [Option.some.injEq, Prod.mk.injEq] at h
      obtain ⟨rfl, rfl, rfl⟩ := h
      obtain ⟨fr, ex, rfl, hfr, hex, hne⟩ :=
        numAfterInt_shape (c :: t.takeWhile isDigit) (t.dropWhile isDigit) _ _ _ hnum hF
      refine ⟨[], c :: t.takeWhile isDigit, fr, ex, by simp, Or.inl rfl, ?_, hfr, hex, hne⟩
      exact Or.inr ⟨c, t.takeWhile isDigit, rfl, hguard.1, hguard.2,
        fun d hd => List.mem_takeWhile_imp hd⟩
    · simp at h
  · simp at h

theorem matchNumber_intRepr {n : Int} {r : List Nat} (h : DelimOk r) :
    matchNumber (intRepr n ++ r) = some (intRepr n, false, r) := by
  unfold intRepr
  split
  · have h0 : n.natAbs ≠ 0 := by omega
    obtain ⟨c, t, he, hc1, hc2, ht⟩ := natRepr_head n.natAbs h0
    have hTW : (t ++ r).takeWhile isDigit = t := by
      rw [takeWhile_append_of_all ht, takeWhile_digit_delim h, List.append_nil]
    have hDW : (t ++ r).dropWhile isDigit = r := by
      rw [dropWhile_append_of_all ht, dropWhile_digit_delim h]
    rw [he]
    show matchNumber (45 :: c :: (t ++ r)) = some (45 :: c :: t, false, r)
    interval_cases c <;>
      (simp only [matchNumber]
       rw [hTW, hDW, numAfterInt_delim _ h]
       simp)
  · exact matchNumber_natRepr h

/-!
## String escaping round-trip
-/

theorem escBody_nil : escBody [] = [] := rfl

theorem escBody_cons (c : Nat) (t : PyStr) :
    escBody (c :: t) = escChar c ++ escBody t := by
  simp [escBody]

theorem hexVal_hexDigitChar {d : Nat} (h : d < 16) :
    hexVal (hexDigitChar d) = some d := by
  unfold hexDigitChar hexVal
  by_cases h10 : d < 10
  · rw [if_pos h10,
      if_pos (by simp only [Bool.and_eq_true, decide_eq_true_eq]; omega)]
    simp
  · rw [if_neg h10,
      if_neg (by simp only [Bool.and_eq_true, decide_eq_true_eq]; omega),
      if_pos (by simp only [Bool.and_eq_true, decide_eq_true_eq]; omega)]
    simp only [Option.some.injEq]
    omega

theorem hex4Val_hexDigits4 {n : Nat} (h : n < 0x10000) :
    hex4Val (hexDigitChar (n / 4096 % 16)) (hexDigitChar (n / 256 % 16))
      (hexDigitChar (n / 16 % 16)) (hexDigitChar (n % 16)) = some n := by
  have e1 := hexVal_hexDigitChar (show n / 4096 % 16 < 16 by omega)
  have e2 := hexVal_hexDigitChar (show n / 256 % 16 < 16 by omega)
  have e3 := hexVal_hexDigitChar (show n / 16 % 16 < 16 by omega)
  have e4 := hexVal_hexDigitChar (show n % 16 < 16 by omega)
  simp only [hex4Val, e1, e2, e3, e4, Option.some.injEq]
  omega

theorem noHiLo_tail {a : Nat} {t : List Nat} (h : noHiLo (a :: t) = true) :
    noHiLo t = true := by
  cases t with
  | nil => rfl
  | cons b r =>
    rw [noHiLo, Bool.and_eq_true] at h
    exact h.2

theorem noHiLo_pair {a b : Nat} {t : List Nat} (h : noHiLo (a :: b :: t) = true) :
    ¬(0xd800 ≤ a ∧ a ≤ 0xdbff ∧ 0xdc00 ≤ b ∧ b ≤ 0xdfff) := by
  intro hcon
  obtain ⟨h1, h2, h3, h4⟩ := hcon
  rw [noHiLo, Bool.and_eq_true] at h
  have h5 := h.1
  rw [show (decide (0xd800 ≤ a)) = true by simp [h1],
    show (decide (a ≤ 0xdbff)) = true by simp [h2],
    show (decide (0xdc00 ≤ b)) = true by simp [h3],
    show (decide (b ≤ 0xdfff)) = true by simp [h4]] at h5
  simp at h5

theorem escChar_class (c2 : Nat) (h : c2 < 0x110000) :
    (∃ x, escChar c2 = [92, x] ∧ x ≠ 117 ∧ backslashMap x = some c2) ∨
    (escChar c2 = [c2] ∧ c2 ≠ 92 ∧ c2 ≠ 34 ∧ ¬ c2 < 32) ∨
    (c2 < 0x10000 ∧ escChar c2 = 92 :: 117 :: hexDigits4 c2) ∨
    (0x10000 ≤ c2 ∧ escChar c2 =
      (92 :: 117 :: hexDigits4 (0xd800 + (c2 - 0x10000) / 1024)) ++
        (92 :: 117 :: hexDigits4 (0xdc00 + (c2 - 0x10000) % 1024))) := by
  by_cases h1 : c2 = 34
  · subst h1; exact Or.inl ⟨34, rfl, by omega, rfl⟩
  by_cases h2 : c2 = 92
  · subst h2; exact Or.inl ⟨92, rfl, by omega, rfl⟩
  by_cases h3 : c2 = 8
  · subst h3; exact Or.inl ⟨98, rfl, by omega, rfl⟩
  by_cases h4 : c2 = 12
  · subst h4; exact Or.inl ⟨102, rfl, by omega, rfl⟩
  by_cases h5 : c2 = 10
  · subst h5; exact Or.inl ⟨110, rfl, by omega, rfl⟩
  by_cases h6 : c2 = 13
  · subst h6; exact Or.inl ⟨114, rfl, by omega, rfl⟩
  by_cases h7 : c2 = 9
  · subst h7; exact Or.inl ⟨116, rfl, by omega, rfl⟩
  by_cases h8 : 32 ≤ c2 ∧ c2 ≤ 126
  · refine Or.inr (Or.inl ⟨?_, h2, h1, by omega⟩)
    unfold escChar
    rw [if_neg h1, if_neg h2, if_neg h3, if_neg h4, if_neg h5, if_neg h6, if_neg h7,
      if_pos (show (decide (32 ≤ c2) && decide (c2 ≤ 126)) = true by
        simp only [Bool.and_eq_true, decide_eq_true_eq]; omega)]
  by_cases h9 : c2 < 0x10000
  · refine Or.inr (Or.inr (Or.inl ⟨h9, ?_⟩))
    unfold escChar
    rw [if_neg h1, if_neg h2, if_neg h3, if_neg h4, if_neg h5, if_neg h6, if_neg h7,
      if_neg (show ¬ ((decide (32 ≤ c2) && decide (c2 ≤ 126)) = true) by
        simp only [Bool.and_eq_true, decide_eq_true_eq]; omega),
      if_pos h9]
  · refine Or.inr (Or.inr (Or.inr ⟨by omega, ?_⟩))
    unfold escChar
    rw [if_neg h1, if_neg h2, if_neg h3, if_neg h4, if_neg h5, if_neg h6, if_neg h7,
      if_neg (show ¬ ((decide (32 ≤ c2) && decide (c2 ≤ 126)) = true) by
        simp only [Bool.and_eq_true, decide_eq_true_eq]; omega),
      if_neg h9]

theorem scanString_quote (fuel : Nat) (begRem rest acc : List Nat) :
    scanString (fuel + 1) begRem (34 :: rest) acc = .ok acc.reverse rest := by
  rw [scanString.eq_def]
  simp

theorem scanString_lit {c : Nat} (h34 : c ≠ 34) (h92 : c ≠ 92) (h32 : ¬ c < 32)
    (fuel : Nat) (begRem t acc : List Nat) :
    scanString (fuel + 1) begRem (c :: t) acc = scanString fuel begRem t (c :: acc) := by
  rw [scanString.eq_def]
  simp [h34, h92, h32]

theorem scanString_shortEsc {x y : Nat} (hx : x ≠ 117) (hmap : backslashMap x = some y)
    (fuel : Nat) (begRem t2 acc : List Nat) :
    scanString (fuel + 1) begRem (92 :: x :: t2) acc =
      scanString fuel begRem t2 (y :: acc) := by
  rw [scanString.eq_def]
  simp [hx, hmap]

theorem scanString_uEsc_nonsurr {u : Nat} (hu : u < 0x10000)
    (hns : ¬(0xd800 ≤ u ∧ u ≤ 0xdbff)) (fuel : Nat) (begRem t3 acc : List Nat) :
    scanString (fuel + 1) begRem (92 :: 117 :: (hexDigits4 u ++ t3)) acc =
      scanString fuel begRem t3 (u :: acc) := by
  simp only [hexDigits4, List.cons_append, List.nil_append]
  rw [scanString.eq_def]
  simp [hex4Val_hexDigits4 hu, hns]

theorem scanString_uEsc_hi_notbs {u y : Nat} {Y : List Nat} (hu1 : 0xd800 ≤ u)
    (hu2 : u ≤ 0xdbff) (hy : y ≠ 92) (fuel : Nat) (begRem acc : List Nat) :
    scanString (fuel + 1) begRem (92 :: 117 :: (hexDigits4 u ++ (y :: Y))) acc =
      scanString fuel begRem (y :: Y) (u :: acc) := by
  simp only [hexDigits4, List.cons_append, List.nil_append]
  rw [scanString.eq_def]
  simp only [hex4Val_hexDigits4 (show u < 0x10000 by omega)]
  simp [if_pos (And.intro hu1 hu2), hu1, hu2]
  split
  · rename_i heq
    rw [List.cons.injEq] at heq
    exact absurd heq.1 hy
  · rename_i heq
    rw [List.cons.injEq] at heq
    exact absurd heq.1 hy
  · rfl

theorem scanString_uEsc_hi_bsx {u x : Nat} {Y : List Nat} (hu1 : 0xd800 ≤ u)
    (hu2 : u ≤ 0xdbff) (hx : x ≠ 117) (fuel : Nat) (begRem acc : List Nat) :
    scanString (fuel + 1) begRem (92 :: 117 :: (hexDigits4 u ++ (92 :: x :: Y))) acc =
      scanString fuel begRem (92 :: x :: Y) (u :: acc) := by
  simp only [hexDigits4, List.cons_append, List.nil_append]
  rw [scanString.eq_def]
  simp only [hex4Val_hexDigits4 (show u < 0x10000 by omega)]
  simp [if_pos (And.intro hu1 hu2), hu1, hu2]
  split
  · rename_i heq
    rw [List.cons.injEq] at heq
    have hh := heq.2
    rw [List.cons.injEq] at hh
    exact absurd hh.1 hx
  · rename_i heq
    rw [List.cons.injEq] at heq
    have hh := heq.2
    rw [List.cons.injEq] at hh
    exact absurd hh.1 hx
  · rfl

theorem scanString_uEsc_hi_u2 {u u2 : Nat} {Y : List Nat} (hu1 : 0xd800 ≤ u)
    (hu2 : u ≤ 0xdbff) (hult : u2 < 0x10000) (hnlo : ¬(0xdc00 ≤ u2 ∧ u2 ≤ 0xdfff))
    (fuel : Nat) (begRem acc : List Nat) :
    scanString (fuel + 1) begRem
        (92 :: 117 :: (hexDigits4 u ++ (92 :: 117 :: (hexDigits4 u2 ++ Y)))) acc =
      scanString fuel begRem (92 :: 117 :: (hexDigits4 u2 ++ Y)) (u :: acc) := by
  conv =>
    lhs
    rw [hexDigits4, hexDigits4]
  simp only [List.cons_append, List.nil_append]
  rw [scanString.eq_def]
  simp [hex4Val_hexDigits4 (show u < 0x10000 by omega), hex4Val_hexDigits4 hult,
    hu1, hu2, hnlo]
  rw [hexDigits4]
  simp

theorem scanString_uEsc_pairG {u u2 : Nat} {Y : List Nat} (hu1 : 0xd800 ≤ u)
    (hu2 : u ≤ 0xdbff) (hl1 : 0xdc00 ≤ u2) (hl2 : u2 ≤ 0xdfff)
    (fuel : Nat) (begRem acc : List Nat) :
    scanString (fuel + 1) begRem
        (92 :: 117 :: (hexDigits4 u ++ (92 :: 117 :: (hexDigits4 u2 ++ Y)))) acc =
      scanString fuel begRem Y
        ((0x10000 + ((u - 0xd800) * 1024 + (u2 - 0xdc00))) :: acc) := by
  conv =>
    lhs
    rw [hexDigits4, hexDigits4]
  simp only [List.cons_append, List.nil_append]
  rw [scanString.eq_def]
  simp [hex4Val_hexDigits4 (show u < 0x10000 by omega),
    hex4Val_hexDigits4 (show u2 < 0x10000 by omega), hu1, hu2, hl1, hl2]

theorem scanString_uEsc_pair {ch : Nat} (h1 : 0x10000 ≤ ch) (h2 : ch < 0x110000)
    (fuel : Nat) (begRem t4 acc : List Nat) :
    scanString (fuel + 1) begRem
        (92 :: 117 :: (hexDigits4 (0xd800 + (ch - 0x10000) / 1024) ++
          (92 :: 117 :: (hexDigits4 (0xdc00 + (ch - 0x10000) % 1024) ++ t4)))) acc =
      scanString fuel begRem t4 (ch :: acc) := by
  rw [@scanString_uEsc_pairG (0xd800 + (ch - 0x10000) / 1024)
    (0xdc00 + (ch - 0x10000) % 1024) t4 (by omega) (by omega) (by omega) (by omega)
    fuel begRem acc]
  have hcc : 0x10000 + ((0xd800 + (ch - 0x10000) / 1024 - 0xd800) * 1024 +
      (0xdc00 + (ch - 0x10000) % 1024 - 0xdc00)) = ch := by
    omega
  rw [hcc]

theorem scanString_rt (s : List Nat) :
    ∀ (fuel : Nat) (acc begRem rest : List Nat), s.length < fuel →
      (∀ c ∈ s, c < 0x110000) → noHiLo s = true →
      scanString fuel begRem (escBody s ++ 34 :: rest) acc =
        .ok (acc.reverse ++ s) rest := by
  induction s with
  | nil =>
    intro fuel acc begRem rest hfuel _ _
    cases fuel with
    | zero => omega
    | succ f =>
      rw [escBody_nil, List.nil_append, scanString_quote]
      simp
  | cons c s' ih =>
    intro fuel acc begRem rest hfuel hlt hnh
    cases fuel with
    | zero => omega
    | succ f =>
      have hf' : s'.length < f := by
        have := List.length_cons c s'
        omega
      have hc : c < 0x110000 := hlt c (List.mem_cons_self c s')
      have hlt' : ∀ x ∈ s', x < 0x110000 := fun x hx => hlt x (List.mem_cons_of_mem _ hx)
      have hnh' := noHiLo_tail hnh
      rw [escBody_cons, List.append_assoc]
      rcases escChar_class c hc with ⟨x, hesc, hx, hmap⟩ | ⟨hesc, h92, h34, h32⟩ |
        ⟨hlt16, hesc⟩ | ⟨hge16, hesc⟩
      · -- short escape [92, x]
        rw [hesc, List.cons_append, List.cons_append, List.nil_append,
          scanString_shortEsc hx hmap]
        rw [ih f (c :: acc) begRem rest hf' hlt' hnh']
        simp
      · -- literal [c]
        rw [hesc, List.cons_append, List.nil_append, scanString_lit h34 h92 h32]
        rw [ih f (c :: acc) begRem rest hf' hlt' hnh']
        simp
      · -- single \uXXXX escape of c
        rw [hesc, List.cons_append, List.cons_append]
        by_cases hHi : 0xd800 ≤ c ∧ c ≤ 0xdbff
        · -- lone high surrogate: the next two characters are never "\u"
          -- followed by a low-surrogate escape
          cases s' with
          | nil =>
            rw [escBody_nil, List.nil_append,
              scanString_uEsc_hi_notbs hHi.1 hHi.2 (by omega)]
            cases f with
            | zero => omega
            | succ f2 =>
              rw [scanString_quote]
              simp
          | cons c2 s'' =>
            have hc2 : c2 < 0x110000 := hlt' c2 (List.mem_cons_self c2 s'')
            have hnlo2 : ¬(0xdc00 ≤ c2 ∧ c2 ≤ 0xdfff) := by
              intro hcon
              exact noHiLo_pair hnh ⟨hHi.1, hHi.2, hcon.1, hcon.2⟩
            rw [escBody_cons, List.append_assoc]
            rcases escChar_class c2 hc2 with ⟨x2, hesc2, hx2, hmap2⟩ |
              ⟨hesc2, h92b, h34b, h32b⟩ | ⟨hlt2, hesc2⟩ | ⟨hge2, hesc2⟩
            · rw [hesc2, List.cons_append, List.cons_append, List.nil_append,
                scanString_uEsc_hi_bsx hHi.1 hHi.2 hx2]
              have hfold : 92 :: x2 :: (escBody s'' ++ 34 :: rest) =
                  escBody (c2 :: s'') ++ 34 :: rest := by
                rw [escBody_cons, hesc2]; simp
              rw [hfold, ih f (c :: acc) begRem rest hf' hlt' hnh']
              simp
            · rw [hesc2, List.cons_append, List.nil_append,
                scanString_uEsc_hi_notbs hHi.1 hHi.2 h92b]
              have hfold : c2 :: (escBody s'' ++ 34 :: rest) =
                  escBody (c2 :: s'') ++ 34 :: rest := by
                rw [escBody_cons, hesc2]; simp
              rw [hfold, ih f (c :: acc) begRem rest hf' hlt' hnh']
              simp
            · rw [hesc2, List.cons_append, List.cons_append,
                scanString_uEsc_hi_u2 hHi.1 hHi.2 hlt2 hnlo2]
              have hfold : 92 :: 117 :: (hexDigits4 c2 ++ (escBody s'' ++ 34 :: rest)) =
                  escBody (c2 :: s'') ++ 34 :: rest := by
                rw [escBody_cons, hesc2]; simp
              rw [hfold, ih f (c :: acc) begRem rest hf' hlt' hnh']
              simp
            · rw [hesc2]
              rw [show ((92 :: 117 :: hexDigits4 (0xd800 + (c2 - 0x10000) / 1024)) ++
                    (92 :: 117 :: hexDigits4 (0xdc00 + (c2 - 0x10000) % 1024))) ++
                    (escBody s'' ++ 34 :: rest) =
                  92 :: 117 :: (hexDigits4 (0xd800 + (c2 - 0x10000) / 1024) ++
                    (92 :: 117 :: (hexDigits4 (0xdc00 + (c2 - 0x10000) % 1024) ++
                      (escBody s'' ++ 34 :: rest)))) from by simp]
              rw [scanString_uEsc_hi_u2 hHi.1 hHi.2 (by omega)
                (by intro hcon; omega)]
              have hfold : 92 :: 117 :: (hexDigits4 (0xd800 + (c2 - 0x10000) / 1024) ++
                    (92 :: 117 :: (hexDigits4 (0xdc00 + (c2 - 0x10000) % 1024) ++
                      (escBody s'' ++ 34 :: rest)))) =
                  escBody (c2 :: s'') ++ 34 :: rest := by
                rw [escBody_cons, hesc2]; simp
              rw [hfold, ih f (c :: acc) begRem rest hf' hlt' hnh']
              simp
        · rw [scanString_uEsc_nonsurr hlt16 hHi]
          rw [ih f (c :: acc) begRem rest hf' hlt' hnh']
          simp
      · -- surrogate pair for c
        rw [hesc]
        rw [show ((92 :: 117 :: hexDigits4 (0xd800 + (c - 0x10000) / 1024)) ++
              (92 :: 117 :: hexDigits4 (0xdc00 + (c - 0x10000) % 1024))) ++
              (escBody s' ++ 34 :: rest) =
            92 :: 117 :: (hexDigits4 (0xd800 + (c - 0x10000) / 1024) ++
              (92 :: 117 :: (hexDigits4 (0xdc00 + (c - 0x10000) % 1024) ++
                (escBody s' ++ 34 :: rest)))) from by simp]
        rw [scanString_uEsc_pair hge16 hc]
        rw [ih f (c :: acc) begRem rest hf' hlt' hnh']
        simp

/-!
## Round trip of whole documents: auxiliary facts
-/

theorem escChar_ne_nil (c : Nat) : escChar c ≠ [] := by
  unfold escChar
  split_ifs <;> simp [hexDigits4]

theorem length_le_escBody (s : PyStr) : s.length ≤ (escBody s).length := by
  induction s with
  | nil => simp [escBody]
  | cons c t ih =>
    rw [escBody_cons]
    have h1 : 0 < (escChar c).length := List.length_pos.mpr (escChar_ne_nil c)
    simp only [List.length_append, List.length_cons]
    omega

theorem nlIndent_all_ws (lvl : Nat) : ∀ c ∈ nlIndent lvl, isWs c = true := by
  intro c hc
  simp only [nlIndent, List.mem_cons, List.mem_replicate] at hc
  rcases hc with rfl | ⟨_, rfl⟩ <;> rfl

theorem dropWhile_nlIndent {r : List Nat} (lvl : Nat) :
    (nlIndent lvl ++ r).dropWhile isWs = r.dropWhile isWs :=
  dropWhile_append_of_all (nlIndent_all_ws lvl)

theorem matchNumber_head {s : List Nat} {r : List Nat × Bool × List Nat}
    (h : matchNumber s = some r) :
    ∃ c t, s = c :: t ∧ (c = 45 ∨ isDigit c = true) := by
  rw [matchNumber.eq_def] at h
  split at h
  · exact ⟨45, _, rfl, Or.inl rfl⟩
  · exact ⟨48, _, rfl, Or.inr (by rfl)⟩
  · rename_i c t hne45 hne48
    split at h
    · rename_i hg
      simp only [Bool.and_eq_true, decide_eq_true_eq] at hg
      exact ⟨c, t, rfl, Or.inr (by simp [isDigit]; omega)⟩
    · exact absurd h (by simp)
  · exact absurd h (by simp)

theorem matchNumber_none_head {c : Nat} (t : List Nat) (h45 : c ≠ 45)
    (hd : isDigit c = false) : matchNumber (c :: t) = none := by
  simp only [isDigit, Bool.and_eq_false_iff, decide_eq_false_iff_not] at hd
  rw [matchNumber.eq_def]
  split
  · rename_i heq
    rw [List.cons.injEq] at heq
    exact absurd heq.1 h45
  · rename_i heq
    rw [List.cons.injEq] at heq
    have hc := heq.1
    omega
  · rename_i hne45 hne48 heq
    rw [List.cons.injEq] at heq
    obtain ⟨h1, h2⟩ := heq
    subst h1
    subst h2
    rw [if_neg]
    simp only [Bool.and_eq_true, decide_eq_true_eq]
    omega
  · rename_i heq
    exact absurd heq (by simp)

theorem matchNumber_dash_none {c : Nat} (t : List Nat) (h48 : c ≠ 48)
    (hd : ¬(49 ≤ c ∧ c ≤ 57)) : matchNumber (45 :: c :: t) = none := by
  rw [matchNumber.eq_def]
  split
  · split
    · rename_i heq
      simp only [List.cons.injEq] at heq
      exact absurd heq.2.1 h48
    · rename_i hne48 heq
      simp only [List.cons.injEq] at heq
      rw [if_neg]
      simp only [Bool.and_eq_true, decide_eq_true_eq]
      have hc := heq.2.1
      omega
    · rfl
  · rename_i heq
    simp only [List.cons.injEq] at heq
    have := heq.1
    omega
  · rename_i hne45 hne48 heq
    simp only [List.cons.injEq] at heq
    exact absurd heq.1.symm hne45
  · rfl

theorem isFloatTok_cases {t : PyStr} (h : isFloatTok t = true) :
    matchNumber t = some (t, true, []) ∨
      t = pyStr "NaN" ∨ t = pyStr "Infinity" ∨ t = pyStr "-Infinity" := by
  simp only [isFloatTok, Bool.or_eq_true, beq_iff_eq] at h
  rcases h with ((h | h) | h) | h
  · left
    rcases hm : matchNumber t with _ | ⟨⟨lex, isF, rest⟩⟩
    · rw [hm] at h; exact absurd h (by simp)
    · rw [hm] at h
      simp only [Bool.and_eq_true, beq_iff_eq, List.isEmpty_iff] at h
      obtain ⟨⟨rfl, rfl⟩, rfl⟩ := h
      rfl
  · exact Or.inr (Or.inl h)
  · exact Or.inr (Or.inr (Or.inl h))
  · exact Or.inr (Or.inr (Or.inr h))

theorem isFloatTok_head {t : PyStr} (h : isFloatTok t = true) :
    ∃ c r, t = c :: r ∧
      (c = 45 ∨ isDigit c = true ∨ c = 78 ∨ c = 73) := by
  rcases isFloatTok_cases h with hm | rfl | rfl | rfl
  · obtain ⟨c, r, rfl, hc⟩ := matchNumber_head hm
    exact ⟨c, r, rfl, by tauto⟩
  · exact ⟨78, _, rfl, by tauto⟩
  · exact ⟨73, _, rfl, by tauto⟩
  · exact ⟨45, _, rfl, by tauto⟩

theorem dumpsVal_head {v : PyJson} (h : wfJ v = true) (lvl : Nat) :
    ∃ c t, dumpsVal lvl v = c :: t ∧ isWs c = false ∧ c ≠ 93 ∧ c ≠ 125 ∧ c ≠ 44 := by
  match v with
  | .null => exact ⟨110, _, rfl, by decide, by decide, by decide, by decide⟩
  | .bool true => exact ⟨116, _, rfl, by decide, by decide, by decide, by decide⟩
  | .bool false => exact ⟨102, _, rfl, by decide, by decide, by decide, by decide⟩
  | .str s => exact ⟨34, _, rfl, by decide, by decide, by decide, by decide⟩
  | .arr [] => exact ⟨91, _, rfl, by decide, by decide, by decide, by decide⟩
  | .arr (x :: xs) => exact ⟨91, _, rfl, by decide, by decide, by decide, by decide⟩
  | .obj [] => exact ⟨123, _, rfl, by decide, by decide, by decide, by decide⟩
  | .obj (kv :: kvs) => exact ⟨123, _, rfl, by decide, by decide, by decide, by decide⟩
  | .int n =>
    show ∃ c t, intRepr n = c :: t ∧ _
    unfold intRepr
    split
    · exact ⟨45, _, rfl, by decide, by decide, by decide, by decide⟩
    · obtain ⟨c, t, he⟩ := List.exists_cons_of_ne_nil (natRepr_ne_nil n.natAbs)
      have hd : isDigit c = true := by
        apply natRepr_all_digits
        rw [he]; exact List.mem_cons_self c t
      rw [isDigit_iff] at hd
      exact ⟨c, t, he, by simp [isWs]; omega, by omega, by omega, by omega⟩
  | .float tok =>
    have hf : isFloatTok tok = true := h
    obtain ⟨c, r, he, hc⟩ := isFloatTok_head hf
    refine ⟨c, r, he, ?_, ?_, ?_, ?_⟩ <;>
      (rcases hc with rfl | hd | rfl | rfl
       · decide
       · rw [isDigit_iff] at hd
         first
         | (simp [isWs]; omega)
         | omega
       · decide
       · decide)

theorem dropWhile_ws_dumpsVal {v : PyJson} (h : wfJ v = true) (lvl : Nat)
    (r : List Nat) :
    (dumpsVal lvl v ++ r).dropWhile isWs = dumpsVal lvl v ++ r := by
  obtain ⟨c, t, he, hws, _⟩ := dumpsVal_head h lvl
  rw [he, List.cons_append, dropWhile_cons_neg hws]


theorem wfStr_parts {s : PyStr} (h : wfStr s = true) :
    (∀ c ∈ s, c < 0x110000) ∧ noHiLo s = true := by
  simp only [wfStr, Bool.and_eq_true, List.all_eq_true, decide_eq_true_eq] at h
  exact h

theorem pyStr_null_eq : pyStr "null" = [110, 117, 108, 108] := rfl

theorem pyStr_true_eq : pyStr "true" = [116, 114, 117, 101] := rfl

theorem pyStr_false_eq : pyStr "false" = [102, 97, 108, 115, 101] := rfl

theorem pyStr_nan_eq : pyStr "NaN" = [78, 97, 78] := rfl

theorem pyStr_inf_eq : pyStr "Infinity" = [73, 110, 102, 105, 110, 105, 116, 121] := rfl

theorem pyStr_ninf_eq : pyStr "-Infinity" = [45, 73, 110, 102, 105, 110, 105, 116, 121] := rfl

theorem scanValue_null (f : Nat) (rest : List Nat) :
    scanValue (f + 1) (pyStr "null" ++ rest) = .ok .null rest := by
  show scanValue (f + 1) (110 :: 117 :: 108 :: 108 :: rest) = _
  simp [scanValue, pyStr_null_eq, pyStr_true_eq, pyStr_false_eq,
    pyStr_nan_eq, pyStr_inf_eq, pyStr_ninf_eq, matchNumber_none_head]

theorem scanValue_true (f : Nat) (rest : List Nat) :
    scanValue (f + 1) (pyStr "true" ++ rest) = .ok (.bool true) rest := by
  show scanValue (f + 1) (116 :: 114 :: 117 :: 101 :: rest) = _
  simp [scanValue, pyStr_null_eq, pyStr_true_eq, pyStr_false_eq,
    pyStr_nan_eq, pyStr_inf_eq, pyStr_ninf_eq, matchNumber_none_head]

theorem scanValue_false (f : Nat) (rest : List Nat) :
    scanValue (f + 1) (pyStr "false" ++ rest) = .ok (.bool false) rest := by
  show scanValue (f + 1) (102 :: 97 :: 108 :: 115 :: 101 :: rest) = _
  simp [scanValue, pyStr_null_eq, pyStr_true_eq, pyStr_false_eq,
    pyStr_nan_eq, pyStr_inf_eq, pyStr_ninf_eq, matchNumber_none_head]

theorem scanValue_nan (f : Nat) (rest : List Nat) :
    scanValue (f + 1) (pyStr "NaN" ++ rest) = .ok (.float (pyStr "NaN")) rest := by
  show scanValue (f + 1) (78 :: 97 :: 78 :: rest) = _
  simp [scanValue, pyStr_null_eq, pyStr_true_eq, pyStr_false_eq,
    pyStr_nan_eq, pyStr_inf_eq, pyStr_ninf_eq]
  rw [matchNumber_none_head _ (by decide) (by decide)]

theorem scanValue_inf (f : Nat) (rest : List Nat) :
    scanValue (f + 1) (pyStr "Infinity" ++ rest) = .ok (.float (pyStr "Infinity")) rest := by
  show scanValue (f + 1) (73 :: 110 :: 102 :: 105 :: 110 :: 105 :: 116 :: 121 :: rest) = _
  simp [scanValue, pyStr_null_eq, pyStr_true_eq, pyStr_false_eq,
    pyStr_nan_eq, pyStr_inf_eq, pyStr_ninf_eq]
  rw [matchNumber_none_head _ (by decide) (by decide)]

theorem scanValue_ninf (f : Nat) (rest : List Nat) :
    scanValue (f + 1) (pyStr "-Infinity" ++ rest) = .ok (.float (pyStr "-Infinity")) rest := by
  show scanValue (f + 1) (45 :: 73 :: 110 :: 102 :: 105 :: 110 :: 105 :: 116 :: 121 :: rest) = _
  simp [scanValue, pyStr_null_eq, pyStr_true_eq, pyStr_false_eq,
    pyStr_nan_eq, pyStr_inf_eq, pyStr_ninf_eq, matchNumber_dash_none]

theorem scanValue_str {s : PyStr} (hwf : wfStr s = true) (f : Nat) (rest : List Nat) :
    scanValue (f + 1) (encodeStrPy s ++ rest) = .ok (.str s) rest := by
  obtain ⟨hlt, hnh⟩ := wfStr_parts hwf
  have he : encodeStrPy s ++ rest = 34 :: (escBody s ++ 34 :: rest) := by
    simp [encodeStrPy]
  rw [he]
  have hfuel : s.length < (escBody s ++ 34 :: rest).length + 1 := by
    have := length_le_escBody s
    simp only [List.length_append, List.length_cons]
    omega
  simp only [scanValue, if_true]
  rw [scanString_rt s _ [] (34 :: (escBody s ++ 34 :: rest)) rest hfuel hlt hnh]
  simp

theorem cons_take_ne {c c' : Nat} {X l' : List Nat} (k : Nat) (hk : k ≠ 0)
    (hne : c ≠ c') : ¬((c :: X).take k = c' :: l') := by
  cases k with
  | zero => omega
  | succ m =>
    rw [List.take_succ_cons]
    simp [hne]

theorem scanValue_arrNil (f : Nat) (rest : List Nat) :
    scanValue (f + 1) (pyStr "[]" ++ rest) = .ok (.arr []) rest := by
  show scanValue (f + 1) (91 :: 93 :: rest) = _
  simp [scanValue, isWs]

theorem scanValue_objNil (f : Nat) (rest : List Nat) :
    scanValue (f + 1) (pyStr "\x7b\x7d" ++ rest) = .ok (.obj []) rest := by
  show scanValue (f + 1) (123 :: 125 :: rest) = _
  simp [scanValue, isWs]

theorem scanValue_int (n : Int) (f : Nat) {rest : List Nat} (h : DelimOk rest) :
    scanValue (f + 1) (intRepr n ++ rest) = .ok (.int n) rest := by
  have hhead : ∃ c t, intRepr n = c :: t ∧ (c = 45 ∨ (48 ≤ c ∧ c ≤ 57)) := by
    unfold intRepr
    split
    · exact ⟨45, _, rfl, Or.inl rfl⟩
    · obtain ⟨c, t, he⟩ := List.exists_cons_of_ne_nil (natRepr_ne_nil n.natAbs)
      refine ⟨c, t, he, Or.inr ?_⟩
      rw [← isDigit_iff]
      apply natRepr_all_digits
      rw [he]
      exact List.mem_cons_self c t
  obtain ⟨c, t, he, hc⟩ := hhead
  rw [he, List.cons_append]
  simp only [scanValue]
  rw [if_neg (show ¬(c = 34) by omega), if_neg (show ¬(c = 123) by omega),
    if_neg (show ¬(c = 91) by omega), pyStr_null_eq, pyStr_true_eq, pyStr_false_eq,
    if_neg (cons_take_ne 4 (by decide) (by omega)),
    if_neg (cons_take_ne 4 (by decide) (by omega)),
    if_neg (cons_take_ne 5 (by decide) (by omega))]
  have hm : matchNumber (c :: (t ++ rest)) = some (intRepr n, false, rest) := by
    rw [← List.cons_append, ← he]
    exact matchNumber_intRepr h
  rw [hm]
  simp [pyIntOfLex_intRepr]

theorem scanValue_float {tok : PyStr} (hf : isFloatTok tok = true) (f : Nat)
    {rest : List Nat} (h : DelimOk rest) :
    scanValue (f + 1) (tok ++ rest) = .ok (.float tok) rest := by
  rcases isFloatTok_cases hf with hm | rfl | rfl | rfl
  · have hshape : FloatShape tok := matchNumber_shape hm rfl
    obtain ⟨c, t, he, hc0⟩ := matchNumber_head hm
    have hc : c = 45 ∨ (48 ≤ c ∧ c ≤ 57) := by
      rcases hc0 with rfl | hd
      · exact Or.inl rfl
      · exact Or.inr (isDigit_iff.mp hd)
    rw [he, List.cons_append]
    simp only [scanValue]
    rw [if_neg (show ¬(c = 34) by omega), if_neg (show ¬(c = 123) by omega),
      if_neg (show ¬(c = 91) by omega), pyStr_null_eq, pyStr_true_eq, pyStr_false_eq,
      if_neg (cons_take_ne 4 (by decide) (by omega)),
      if_neg (cons_take_ne 4 (by decide) (by omega)),
      if_neg (cons_take_ne 5 (by decide) (by omega))]
    have hm2 : matchNumber (c :: (t ++ rest)) = some (tok, true, rest) := by
      rw [← List.cons_append, ← he]
      exact matchNumber_floatShape hshape h
    rw [hm2, ← he]
    simp
  · exact scanValue_nan f rest
  · exact scanValue_inf f rest
  · exact scanValue_ninf f rest

theorem dictInsert_not_mem {d : List (PyStr × PyJson)} {k : PyStr} (v : PyJson)
    (h : ∀ kv ∈ d, kv.1 ≠ k) : dictInsert d k v = d ++ [(k, v)] := by
  induction d with
  | nil => rfl
  | cons kv t ih =>
    obtain ⟨k0, v0⟩ := kv
    rw [dictInsert, if_neg (h (k0, v0) (List.mem_cons_self _ _))]
    rw [ih (fun kv hkv => h kv (List.mem_cons_of_mem _ hkv))]
    simp

theorem nodupKeys_split {k : PyStr} {v : PyJson} :
    ∀ {l1 l2 : List (PyStr × PyJson)},
      nodupKeys (l1 ++ (k, v) :: l2) = true → ∀ kv ∈ l1, kv.1 ≠ k := by
  intro l1
  induction l1 with
  | nil =>
    intro l2 h kv hkv
    exact absurd hkv (by simp)
  | cons kv0 t ih =>
    intro l2 h kv hkv
    obtain ⟨k0, v0⟩ := kv0
    rw [List.cons_append, nodupKeys, Bool.and_eq_true] at h
    rcases List.mem_cons.mp hkv with rfl | hmem
    · intro hEq
      have hany := h.1
      simp only [Bool.not_eq_true', List.any_eq_false] at hany
      have := hany (k, v) (by simp)
      simp at this
      exact this hEq.symm
    · exact ih h.2 kv hmem

theorem foldl_dictInsert {pairs : List (PyStr × PyJson)} :
    ∀ {acc : List (PyStr × PyJson)}, nodupKeys (acc ++ pairs) = true →
      pairs.foldl (fun d kv => dictInsert d kv.1 kv.2) acc = acc ++ pairs := by
  induction pairs with
  | nil =>
    intro acc _
    simp
  | cons kv t ih =>
    intro acc h
    obtain ⟨k, v⟩ := kv
    rw [List.foldl_cons]
    have hnm : ∀ kv2 ∈ acc, kv2.1 ≠ k := nodupKeys_split h
    rw [dictInsert_not_mem v hnm]
    rw [ih (by rw [List.append_assoc]; simpa using h)]
    simp

theorem dictOfPairs_self {l : List (PyStr × PyJson)} (h : nodupKeys l = true) :
    dictOfPairs l = l := by
  unfold dictOfPairs
  rw [foldl_dictInsert (by simpa using h)]
  simp

theorem sizeJ_pos (v : PyJson) : 1 ≤ sizeJ v := by
  cases v <;> simp [sizeJ] <;> omega

theorem scanValue_arr_go {T : List Nat} {c0 : Nat} {t0 : List Nat} (f : Nat)
    (h : T.dropWhile isWs = c0 :: t0) (h93 : c0 ≠ 93) :
    scanValue (f + 1) (91 :: T) = scanArrayBody f (c0 :: t0) [] := by
  simp only [scanValue]
  rw [if_neg (by decide : ¬((91:Nat) = 34)), if_neg (by decide : ¬((91:Nat) = 123)),
    if_true, h]
  split
  · rename_i heq
    rw [List.cons.injEq] at heq
    exact absurd heq.1 h93
  · rfl

theorem scanValue_obj_go {T t2 : List Nat} (f : Nat) (h : T.dropWhile isWs = 34 :: t2) :
    scanValue (f + 1) (123 :: T) = scanObjectBody f t2 [] := by
  simp only [scanValue]
  rw [if_neg (by decide : ¬((123:Nat) = 34)), if_true, h]

theorem rt_fuel : ∀ fuel : Nat,
    (∀ (v : PyJson) (lvl : Nat) (rest : List Nat), wfJ v = true → sizeJ v ≤ fuel →
       DelimOk rest → scanValue fuel (dumpsVal lvl v ++ rest) = .ok v rest) ∧
    (∀ (x : PyJson) (xs : List PyJson) (lvl : Nat) (rest : List Nat)
       (acc : List PyJson), wfJ x = true → wfArr xs = true →
       sizeList (x :: xs) ≤ fuel → DelimOk rest →
       scanArrayBody fuel
         (dumpsVal (lvl + 1) x ++
           (dumpsItems (lvl + 1) xs ++ (nlIndent lvl ++ (93 :: rest)))) acc
       = .ok (.arr (acc ++ x :: xs)) rest) ∧
    (∀ (k : PyStr) (v : PyJson) (kvs : List (PyStr × PyJson)) (lvl : Nat)
       (rest : List Nat) (pairs : List (PyStr × PyJson)),
       wfStr k = true → wfJ v = true → wfObj kvs = true →
       nodupKeys (pairs ++ (k, v) :: kvs) = true →
       sizePairs ((k, v) :: kvs) ≤ fuel → DelimOk rest →
       scanObjectBody fuel
         (escBody k ++ (34 :: (58 :: (32 :: (dumpsVal (lvl + 1) v ++
           (dumpsPairs (lvl + 1) kvs ++ (nlIndent lvl ++ (125 :: rest)))))))) pairs
       = .ok (.obj (pairs ++ (k, v) :: kvs)) rest) := by
  intro fuel
  induction fuel with
  | zero =>
    refine ⟨?_, ?_, ?_⟩
    · intro v _ _ _ hsz _
      have := sizeJ_pos v
      omega
    · intro x xs _ _ _ _ _ hsz _
      simp only [sizeList] at hsz
      omega
    · intro k v kvs _ _ _ _ _ _ _ hsz _
      simp only [sizePairs] at hsz
      omega
  | succ f ih =>
    obtain ⟨ihV, ihA, ihO⟩ := ih
    refine ⟨?_, ?_, ?_⟩
    · -- scanValue
      intro v lvl rest hwf hsz hrest
      match v with
      | .null => exact scanValue_null f rest
      | .bool true => exact scanValue_true f rest
      | .bool false => exact scanValue_false f rest
      | .int n => exact scanValue_int n f hrest
      | .float tok => exact scanValue_float hwf f hrest
      | .str s => exact scanValue_str hwf f rest
      | .arr [] => exact scanValue_arrNil f rest
      | .obj [] => exact scanValue_objNil f rest
      | .arr (x :: xs) =>
        have hx : wfJ x = true := by
          have : wfArr (x :: xs) = true := hwf
          rw [wfArr, Bool.and_eq_true] at this
          exact this.1
        have hxs : wfArr xs = true := by
          have : wfArr (x :: xs) = true := hwf
          rw [wfArr, Bool.and_eq_true] at this
          exact this.2
        have hsz2 : sizeList (x :: xs) ≤ f := by
          simp only [sizeJ] at hsz
          omega
        rw [dumpsVal]
        simp only [List.cons_append, List.append_assoc, List.nil_append]
        obtain ⟨c0, t0, heq0, hws0, h93, _, _⟩ := dumpsVal_head hx (lvl + 1)
        have hdw : (nlIndent (lvl + 1) ++ (dumpsVal (lvl + 1) x ++
            (dumpsItems (lvl + 1) xs ++ (nlIndent lvl ++ 93 :: rest)))).dropWhile isWs =
            c0 :: (t0 ++ (dumpsItems (lvl + 1) xs ++ (nlIndent lvl ++ 93 :: rest))) := by
          rw [dropWhile_nlIndent, dropWhile_ws_dumpsVal hx, heq0, List.cons_append]
        rw [scanValue_arr_go f hdw h93, ← List.cons_append, ← heq0]
        rw [ihA x xs lvl rest [] hx hxs hsz2 hrest]
        simp
      | .obj (⟨k, v0⟩ :: kvs) =>
        have hnd : nodupKeys ((k, v0) :: kvs) = true := by
          have : (nodupKeys ((k, v0) :: kvs) && wfObj ((k, v0) :: kvs)) = true := hwf
          rw [Bool.and_eq_true] at this
          exact this.1
        have hobj : wfObj ((k, v0) :: kvs) = true := by
          have : (nodupKeys ((k, v0) :: kvs) && wfObj ((k, v0) :: kvs)) = true := hwf
          rw [Bool.and_eq_true] at this
          exact this.2
        rw [wfObj] at hobj
        simp only [Bool.and_eq_true] at hobj
        obtain ⟨⟨hk, hv0⟩, hkvs⟩ := hobj
        have hsz2 : sizePairs ((k, v0) :: kvs) ≤ f := by
          simp only [sizeJ] at hsz
          omega
        rw [dumpsVal]
        simp only [dumpsPair, encodeStrPy, List.cons_append, List.append_assoc,
          List.nil_append]
        have hdw : (nlIndent (lvl + 1) ++ (34 :: (escBody k ++
            (34 :: (58 :: (32 :: (dumpsVal (lvl + 1) v0 ++ (dumpsPairs (lvl + 1) kvs ++
              (nlIndent lvl ++ 125 :: rest))))))))).dropWhile isWs =
            34 :: (escBody k ++ (34 :: (58 :: (32 :: (dumpsVal (lvl + 1) v0 ++
              (dumpsPairs (lvl + 1) kvs ++ (nlIndent lvl ++ 125 :: rest))))))) := by
          rw [dropWhile_nlIndent, dropWhile_cons_neg (by decide : isWs 34 = false)]
        rw [scanValue_obj_go f hdw]
        rw [ihO k v0 kvs lvl rest [] hk hv0 hkvs (by simpa using hnd) hsz2 hrest]
        simp
    · -- scanArrayBody
      intro x xs lvl rest acc hx hxs hsz hrest
      rw [scanArrayBody]
      cases xs with
      | nil =>
        have hX : DelimOk (dumpsItems (lvl + 1) [] ++ (nlIndent lvl ++ (93 :: rest))) := by
          simp [dumpsItems, nlIndent, DelimOk]
        rw [ihV x (lvl + 1) _ hx (by simp only [sizeList] at hsz; omega) hX]
        have hdw : (dumpsItems (lvl + 1) [] ++ (nlIndent lvl ++ (93 :: rest))).dropWhile isWs
            = 93 :: rest := by
          simp only [dumpsItems, List.nil_append]
          rw [dropWhile_nlIndent]
          exact dropWhile_cons_neg (by decide)
        simp only []
        rw [hdw]
      | cons x2 xs2 =>
        have hx2 : wfJ x2 = true := by
          rw [wfArr, Bool.and_eq_true] at hxs
          exact hxs.1
        have hxs2 : wfArr xs2 = true := by
          rw [wfArr, Bool.and_eq_true] at hxs
          exact hxs.2
        simp only [dumpsItems, List.cons_append, List.append_assoc, List.nil_append]
        have hX : DelimOk (44 :: (nlIndent (lvl + 1) ++ (dumpsVal (lvl + 1) x2 ++
            (dumpsItems (lvl + 1) xs2 ++ (nlIndent lvl ++ (93 :: rest)))))) := by
          simp [DelimOk]
        rw [ihV x (lvl + 1) _ hx (by simp only [sizeList] at hsz; omega) hX]
        simp only []
        rw [dropWhile_cons_neg (by decide : isWs 44 = false)]
        split
        · rename_i t heq
          rw [List.cons.injEq] at heq
          exact absurd heq.1 (by decide)
        · rename_i t heq
          rw [List.cons.injEq] at heq
          obtain ⟨h1, h2⟩ := heq
          subst h2
          rw [dropWhile_nlIndent, dropWhile_ws_dumpsVal hx2]
          rw [ihA x2 xs2 lvl rest (acc ++ [x]) hx2 hxs2
            (by simp only [sizeList] at hsz ⊢; have := sizeJ_pos x; omega) hrest]
          simp
        · rename_i hn1 hn2
          exact absurd rfl (hn2 _)

    · -- scanObjectBody
      intro k v kvs lvl rest pairs hk hv hkvs hnd hsz hrest
      rw [scanObjectBody]
      have hlen : k.length <
          (escBody k ++ (34 :: (58 :: (32 :: (dumpsVal (lvl + 1) v ++
            (dumpsPairs (lvl + 1) kvs ++ (nlIndent lvl ++ (125 :: rest)))))))).length + 1 := by
        have := length_le_escBody k
        simp only [List.length_append, List.length_cons]
        omega
      obtain ⟨hklt, hknh⟩ := wfStr_parts hk
      rw [scanString_rt k _ [] _ _ hlen hklt hknh]
      simp only [List.reverse_nil, List.nil_append]
      rw [dropWhile_cons_neg (by decide : isWs 58 = false)]
      have hdw32 : ∀ Z : List Nat, (32 :: Z).dropWhile isWs = Z.dropWhile isWs := by
        intro Z
        rw [List.dropWhile_cons]
        simp [isWs]
      split
      · rename_i t3 heq
        rw [List.cons.injEq] at heq
        obtain ⟨h1, h2⟩ := heq
        subst h2
        rw [hdw32, dropWhile_ws_dumpsVal hv]
        cases kvs with
        | nil =>
          have hY : DelimOk (dumpsPairs (lvl + 1) [] ++ (nlIndent lvl ++ (125 :: rest))) := by
            simp [dumpsPairs, nlIndent, DelimOk]
          rw [ihV v (lvl + 1) _ hv (by simp only [sizePairs] at hsz; omega) hY]
          have hdw : (dumpsPairs (lvl + 1) [] ++ (nlIndent lvl ++ (125 :: rest))).dropWhile isWs
              = 125 :: rest := by
            simp only [dumpsPairs, List.nil_append]
            rw [dropWhile_nlIndent]
            exact dropWhile_cons_neg (by decide)
          simp only []
          rw [hdw]
          rw [dictOfPairs_self (by simpa using hnd)]
        | cons kv2 kvs2 =>
          obtain ⟨k2, v2⟩ := kv2
          rw [wfObj] at hkvs
          simp only [Bool.and_eq_true] at hkvs
          obtain ⟨⟨hk2, hv2⟩, hkvs2⟩ := hkvs
          simp only [dumpsPairs, dumpsPair, encodeStrPy, List.cons_append,
            List.append_assoc, List.nil_append]
          have hY : DelimOk (44 :: (nlIndent (lvl + 1) ++ (34 :: (escBody k2 ++
              (34 :: (58 :: (32 :: (dumpsVal (lvl + 1) v2 ++ (dumpsPairs (lvl + 1) kvs2 ++
                (nlIndent lvl ++ (125 :: rest))))))))))) := by
            simp [DelimOk]
          rw [ihV v (lvl + 1) _ hv (by simp only [sizePairs] at hsz; omega) hY]
          simp only []
          rw [dropWhile_cons_neg (by decide : isWs 44 = false)]
          split
          · rename_i t heq2
            rw [List.cons.injEq] at heq2
            exact absurd heq2.1 (by decide)
          · rename_i t heq2
            rw [List.cons.injEq] at heq2
            obtain ⟨g1, g2⟩ := heq2
            subst g2
            rw [dropWhile_nlIndent, dropWhile_cons_neg (by decide : isWs 34 = false)]
            split
            · rename_i t6 heq3
              rw [List.cons.injEq] at heq3
              obtain ⟨g3, g4⟩ := heq3
              subst g4
              rw [ihO k2 v2 kvs2 lvl rest (pairs ++ [(k, v)]) hk2 hv2 hkvs2
                (by rw [List.append_assoc]; simpa using hnd)
                (by simp only [sizePairs] at hsz ⊢; have := sizeJ_pos v; omega) hrest]
              simp
            · rename_i hn
              exact absurd rfl (hn _)
          · rename_i hn1 hn2
            exact absurd rfl (hn2 _)
      · rename_i hn
        exact absurd rfl (hn _)



theorem intRepr_ne_nil (n : Int) : intRepr n ≠ [] := by
  unfold intRepr
  split
  · simp
  · exact natRepr_ne_nil _

mutual

theorem sizeJ_le_dumps (v : PyJson) (lvl : Nat) (h : wfJ v = true) :
    sizeJ v ≤ 2 * (dumpsVal lvl v).length := by
  match v with
  | .null => simp [sizeJ, dumpsVal, pyStr_null_eq]
  | .bool true => simp [sizeJ, dumpsVal, pyStr_true_eq]
  | .bool false => simp [sizeJ, dumpsVal, pyStr_false_eq]
  | .int n =>
    have h1 : 0 < (intRepr n).length := List.length_pos.mpr (intRepr_ne_nil n)
    simp only [sizeJ, dumpsVal]
    omega
  | .float tok =>
    obtain ⟨c, r, he, _⟩ := isFloatTok_head h
    simp only [sizeJ, dumpsVal, he, List.length_cons]
    omega
  | .str s =>
    simp only [sizeJ, dumpsVal, encodeStrPy, List.length_cons, List.length_append,
      List.length_cons]
    omega
  | .arr [] => simp [sizeJ, sizeList, dumpsVal, pyStr]
  | .obj [] => simp [sizeJ, sizePairs, dumpsVal, pyStr]
  | .arr (x :: xs) =>
    rw [wfJ] at h
    have hx : wfJ x = true := by
      rw [wfArr, Bool.and_eq_true] at h
      exact h.1
    have hxs : wfArr xs = true := by
      rw [wfArr, Bool.and_eq_true] at h
      exact h.2
    have ih1 := sizeJ_le_dumps x (lvl + 1) hx
    have ih2 := sizeList_le_dumps xs (lvl + 1) hxs
    simp only [sizeJ, sizeList, dumpsVal, List.length_cons, List.length_append,
      nlIndent, List.length_replicate] at ih1 ih2 ⊢
    omega
  | .obj (kv :: kvs) =>
    obtain ⟨k, v0⟩ := kv
    rw [wfJ, Bool.and_eq_true] at h
    have hobj := h.2
    rw [wfObj] at hobj
    simp only [Bool.and_eq_true] at hobj
    obtain ⟨⟨hk, hv0⟩, hkvs⟩ := hobj
    have ih1 := sizeJ_le_dumps v0 (lvl + 1) hv0
    have ih2 := sizePairs_le_dumps kvs (lvl + 1) hkvs
    simp only [sizeJ, sizePairs, dumpsVal, dumpsPair, encodeStrPy, List.length_cons,
      List.length_append, nlIndent, List.length_replicate] at ih1 ih2 ⊢
    omega
termination_by structural v

theorem sizeList_le_dumps (xs : List PyJson) (lvl : Nat) (h : wfArr xs = true) :
    sizeList xs ≤ 2 * (dumpsItems lvl xs).length := by
  match xs with
  | [] => simp [sizeList, dumpsItems]
  | x :: xs2 =>
    rw [wfArr, Bool.and_eq_true] at h
    have ih1 := sizeJ_le_dumps x lvl h.1
    have ih2 := sizeList_le_dumps xs2 lvl h.2
    simp only [sizeList, dumpsItems, List.length_cons, List.length_append,
      nlIndent, List.length_replicate] at ih1 ih2 ⊢
    omega
termination_by structural xs

theorem sizePairs_le_dumps (kvs : List (PyStr × PyJson)) (lvl : Nat)
    (h : wfObj kvs = true) :
    sizePairs kvs ≤ 2 * (dumpsPairs lvl kvs).length := by
  match kvs with
  | [] => simp [sizePairs, dumpsPairs]
  | (k, v) :: kvs2 =>
    rw [wfObj] at h
    simp only [Bool.and_eq_true] at h
    obtain ⟨⟨hk, hv⟩, hkvs⟩ := h
    have ih1 := sizeJ_le_dumps v lvl hv
    have ih2 := sizePairs_le_dumps kvs2 lvl hkvs
    simp only [sizePairs, dumpsPairs, dumpsPair, encodeStrPy, List.length_cons,
      List.length_append, nlIndent, List.length_replicate] at ih1 ih2 ⊢
    omega
termination_by structural kvs

end

theorem jsonLoads_dumps (v : PyJson) (h : wfJ v = true) :
    jsonLoads (jsonDumps2 v) = .ok v := by
  unfold jsonLoads jsonDumps2
  obtain ⟨c, t, he, hws, _⟩ := dumpsVal_head h 0
  rw [he, dropWhile_cons_neg hws, ← he]
  have hfuel : sizeJ v ≤ 3 * (dumpsVal 0 v).length + 4 := by
    have := sizeJ_le_dumps v 0 h
    omega
  have hscan := (rt_fuel (3 * (dumpsVal 0 v).length + 4)).1 v 0 [] h hfuel trivial
  rw [List.append_nil] at hscan
  rw [hscan]
  rfl


theorem wfStr_intro {s : PyStr} (h1 : ∀ c ∈ s, c < 0x110000)
    (h2 : noHiLo s = true) : wfStr s = true := by
  simp only [wfStr, Bool.and_eq_true, List.all_eq_true, decide_eq_true_eq]
  exact ⟨h1, h2⟩

theorem backslashMap_bound {e ch : Nat} (h : backslashMap e = some ch) :
    ch < 0xd800 := by
  unfold backslashMap at h
  split_ifs at h <;>
    first
    | (simp only [Option.some.injEq] at h; omega)
    | simp at h

theorem noHiLo_append_singleton : ∀ {L : List Nat} {c : Nat}, noHiLo L = true →
    (∀ a, L.getLast? = some a →
      ¬(0xd800 ≤ a ∧ a ≤ 0xdbff ∧ 0xdc00 ≤ c ∧ c ≤ 0xdfff)) →
    noHiLo (L ++ [c]) = true := by
  intro L
  induction L with
  | nil => intro c _ _; rfl
  | cons a L2 ih =>
    intro c h hl
    cases L2 with
    | nil =>
      have hp := hl a rfl
      show noHiLo [a, c] = true
      have h1 : noHiLo [c] = true := rfl
      rw [noHiLo, h1, Bool.and_true, Bool.not_eq_true', Bool.and_eq_false_iff,
        Bool.and_eq_false_iff, Bool.and_eq_false_iff]
      simp only [decide_eq_false_iff_not]
      tauto
    | cons b L3 =>
      rw [noHiLo, Bool.and_eq_true] at h
      simp only [List.cons_append]
      rw [noHiLo, Bool.and_eq_true]
      refine ⟨h.1, ?_⟩
      have := ih h.2 (fun x hx => hl x (by rw [List.getLast?_cons_cons]; exact hx))
      simpa using this

theorem hexVal_lt {c v : Nat} (h : hexVal c = some v) : v < 16 := by
  unfold hexVal at h
  split_ifs at h <;>
    first
    | (simp_all only [Bool.and_eq_true, decide_eq_true_eq, Option.some.injEq]
       omega)
    | simp at h

theorem hex4Val_lt {a b c d u : Nat} (h : hex4Val a b c d = some u) : u < 0x10000 := by
  unfold hex4Val at h
  rcases ha : hexVal a with _ | va <;> rw [ha] at h
  · simp at h
  rcases hb : hexVal b with _ | vb <;> rw [hb] at h
  · simp at h
  rcases hc : hexVal c with _ | vc <;> rw [hc] at h
  · simp at h
  rcases hd : hexVal d with _ | vd <;> rw [hd] at h
  · simp at h
  simp only [Option.some.injEq] at h
  have h1 := hexVal_lt ha
  have h2 := hexVal_lt hb
  have h3 := hexVal_lt hc
  have h4 := hexVal_lt hd
  omega

theorem isScalar_facts {c : Nat} (h : isScalar c = true) :
    c < 0x110000 ∧ ¬(0xd800 ≤ c ∧ c ≤ 0xdfff) := by
  simp only [isScalar, Bool.and_eq_true, Bool.not_eq_true', Bool.and_eq_false_iff,
    decide_eq_true_eq, decide_eq_false_iff_not] at h
  exact ⟨h.1, by rcases h.2 with h2 | h2 <;> omega⟩

theorem scanString_succ (f : Nat) (begRem s acc : List Nat) :
    scanString (f + 1) begRem s acc =
      match s with
      | [] => .err "Unterminated string starting at" begRem
      | c :: t =>
        if c = 34 then .ok acc.reverse t
        else if c = 92 then
          match t with
          | [] => .err "Unterminated string starting at" begRem
          | e :: t2 =>
            if e = 117 then
              match t2 with
              | a :: b :: c3 :: d :: t3 =>
                match hex4Val a b c3 d with
                | none => .err "Invalid \\uXXXX escape" (e :: t2)
                | some u =>
                  if 0xd800 ≤ u ∧ u ≤ 0xdbff then
                    match t3 with
                    | 92 :: 117 :: a2 :: b2 :: c2 :: d2 :: t4 =>
                      match hex4Val a2 b2 c2 d2 with
                      | none =>
                        .err "Invalid \\uXXXX escape" (117 :: a2 :: b2 :: c2 :: d2 :: t4)
                      | some u2 =>
                        if 0xdc00 ≤ u2 ∧ u2 ≤ 0xdfff then
                          scanString f begRem t4
                            ((0x10000 + ((u - 0xd800) * 1024 + (u2 - 0xdc00))) :: acc)
                        else
                          scanString f begRem
                            (92 :: 117 :: a2 :: b2 :: c2 :: d2 :: t4) (u :: acc)
                    | 92 :: 117 :: r4 => .err "Invalid \\uXXXX escape" (117 :: r4)
                    | other => scanString f begRem other (u :: acc)
                  else scanString f begRem t3 (u :: acc)
              | _ => .err "Invalid \\uXXXX escape" (e :: t2)
            else
              match backslashMap e with
              | some ch => scanString f begRem t2 (ch :: acc)
              | none => .err "Invalid \\escape" (92 :: e :: t2)
        else if c < 32 then .err "Invalid control character at" (c :: t)
        else scanString f begRem t (c :: acc) := rfl

set_option maxRecDepth 4096 in
theorem scanString_wf : ∀ (fuel : Nat) (begRem s acc out rest : List Nat),
    (∀ c ∈ s, isScalar c = true) →
    (∀ c ∈ acc, c < 0x110000) →
    noHiLo acc.reverse = true →
    (headHi acc → ¬ loEsc s) →
    scanString fuel begRem s acc = .ok out rest →
    ((∀ c ∈ out, c < 0x110000) ∧ noHiLo out = true) ∧ ∀ c ∈ rest, c ∈ s := by
  intro fuel
  induction fuel with
  | zero =>
    intro begRem s acc out rest _ _ _ _ h
    simp [scanString] at h
  | succ f ih =>
    intro begRem s acc out rest hs hacc hnh hhl h
    rw [scanString_succ] at h
    split at h
    · exact absurd h (by simp)
    rename_i c t
    split at h
    · -- c = 34: the closing quote
      simp only [JRes.ok.injEq] at h
      obtain ⟨h1, h2⟩ := h
      subst h1
      subst h2
      refine ⟨⟨?_, hnh⟩, ?_⟩
      · intro x hx
        exact hacc x (List.mem_reverse.mp hx)
      · intro x hx
        exact List.mem_cons_of_mem _ hx
    rename_i h34
    split at h
    · -- c = 92: escape
      rename_i h92
      split at h
      · exact absurd h (by simp)
      rename_i e t2X
      split at h
      · -- e = 117
        rename_i h117
        split at h
        case _ a b c3 d t3 =>
          split at h
          · exact absurd h (by simp)
          rename_i u hhexu
          split at h
          · -- u high surrogate
            rename_i hHi
            split at h
            · -- followed by another \uXXXX escape
              rename_i a2 b2 c2 d2 t4
              split at h
              · exact absurd h (by simp)
              rename_i u2 hhexu2
              split at h
              · -- a low surrogate: combine the pair
                rename_i hLo
                have hch : (65536 + ((u - 55296) * 1024 + (u2 - 56320))) < 0x110000 := by
                  have := hex4Val_lt hhexu2
                  omega
                have hres := ih begRem t4
                  ((65536 + ((u - 55296) * 1024 + (u2 - 56320))) :: acc) out rest
                  (fun x hx => hs x
                    (List.mem_append_right [c, e, a, b, c3, d, 92, 117, a2, b2, c2, d2] hx))
                  (fun x hx => by
                    rcases List.mem_cons.mp hx with he | hm
                    · rw [he]
                      exact hch
                    · exact hacc x hm)
                  (by
                    rw [List.reverse_cons]
                    refine noHiLo_append_singleton hnh ?_
                    intro a0 _ hcon
                    omega)
                  (by
                    intro hhd
                    exact absurd hhd (by simp only [headHi]; omega))
                  h
                refine ⟨hres.1, ?_⟩
                intro x hx
                exact List.mem_append_right [c, e, a, b, c3, d, 92, 117, a2, b2, c2, d2]
                  (hres.2 x hx)
              · -- not a low surrogate: the high surrogate stands alone
                rename_i hNlo
                have hu16 := hex4Val_lt hhexu
                have hres := ih begRem (92 :: 117 :: a2 :: b2 :: c2 :: d2 :: t4)
                  (u :: acc) out rest
                  (fun x hx => hs x (List.mem_append_right [c, e, a, b, c3, d] hx))
                  (fun x hx => by
                    rcases List.mem_cons.mp hx with rfl | hm
                    · omega
                    · exact hacc x hm)
                  (by
                    rw [List.reverse_cons]
                    refine noHiLo_append_singleton hnh ?_
                    intro a0 _ hcon
                    omega)
                  (by
                    intro _ hle
                    obtain ⟨a3, b3, c4, d3, t5, u3, heqL, hhex3, hlo1, hlo2⟩ := hle
                    simp only [List.cons.injEq] at heqL
                    obtain ⟨_, _, ha3, hb3, hc4, hd3, _⟩ := heqL
                    rw [← ha3, ← hb3, ← hc4, ← hd3, hhexu2] at hhex3
                    simp only [Option.some.injEq] at hhex3
                    subst hhex3
                    exact hNlo ⟨hlo1, hlo2⟩)
                  h
                refine ⟨hres.1, ?_⟩
                intro x hx
                exact List.mem_append_right [c, e, a, b, c3, d] (hres.2 x hx)
            · -- "\u" followed by too few characters
              exact absurd h (by simp)
            · -- not followed by a backslash-u sequence at all
              rename_i hov1 hov2
              have hu16 := hex4Val_lt hhexu
              have hres := ih begRem t3 (u :: acc) out rest
                (fun x hx => hs x (List.mem_append_right [c, e, a, b, c3, d] hx))
                (fun x hx => by
                  rcases List.mem_cons.mp hx with rfl | hm
                  · omega
                  · exact hacc x hm)
                (by
                  rw [List.reverse_cons]
                  refine noHiLo_append_singleton hnh ?_
                  intro a0 _ hcon
                  omega)
                (by
                  intro _ hle
                  obtain ⟨a3, b3, c4, d3, t5, u3, heqL, _, _, _⟩ := hle
                  exact hov1 a3 b3 c4 d3 t5 heqL)
                h
              refine ⟨hres.1, ?_⟩
              intro x hx
              exact List.mem_append_right [c, e, a, b, c3, d] (hres.2 x hx)
          · -- u below the surrogate range, above it, or a lone low surrogate
            rename_i hNhi
            have hu16 := hex4Val_lt hhexu
            have hres := ih begRem t3 (u :: acc) out rest
              (fun x hx => hs x (List.mem_append_right [c, e, a, b, c3, d] hx))
              (fun x hx => by
                rcases List.mem_cons.mp hx with rfl | hm
                · omega
                · exact hacc x hm)
              (by
                rw [List.reverse_cons]
                refine noHiLo_append_singleton hnh ?_
                intro a0 ha0 hcon
                rw [List.getLast?_reverse] at ha0
                have hhd : headHi acc := by
                  cases acc with
                  | nil => simp at ha0
                  | cons a1 accT =>
                    simp only [List.head?_cons, Option.some.injEq] at ha0
                    subst ha0
                    exact ⟨hcon.1, hcon.2.1⟩
                refine (hhl hhd) ⟨a, b, c3, d, t3, u, ?_, hhexu, hcon.2.2.1, hcon.2.2.2⟩
                rw [h92, h117])
              (fun hhd => absurd hhd hNhi)
              h
            refine ⟨hres.1, ?_⟩
            intro x hx
            exact List.mem_append_right [c, e, a, b, c3, d] (hres.2 x hx)
        case _ xshort =>
          exact absurd h (by simp)
      · -- short escape
        rename_i h117
        split at h
        · rename_i ch0 hmap
          have hch := backslashMap_bound hmap
          have hres := ih begRem t2X (ch0 :: acc) out rest
            (fun x hx => hs x (List.mem_append_right [c, e] hx))
            (fun x hx => by
              rcases List.mem_cons.mp hx with rfl | hm
              · omega
              · exact hacc x hm)
            (by
              rw [List.reverse_cons]
              refine noHiLo_append_singleton hnh ?_
              intro a0 _ hcon
              omega)
            (fun hhd => absurd hhd (by simp only [headHi]; omega))
            h
          refine ⟨hres.1, ?_⟩
          intro x hx
          exact List.mem_append_right [c, e] (hres.2 x hx)
        · exact absurd h (by simp)
    · -- plain character
      rename_i h92
      split at h
      · exact absurd h (by simp)
      rename_i h32
      obtain ⟨hclt, hcns⟩ := isScalar_facts (hs c (List.mem_cons_self c t))
      have hres := ih begRem t (c :: acc) out rest
        (fun x hx => hs x (List.mem_cons_of_mem _ hx))
        (fun x hx => by
          rcases List.mem_cons.mp hx with rfl | hm
          · exact hclt
          · exact hacc x hm)
        (by
          rw [List.reverse_cons]
          refine noHiLo_append_singleton hnh ?_
          intro a0 ha0
          intro hcon
          exact hcns ⟨by omega, by omega⟩)
        (by
          intro hhd
          simp only [headHi] at hhd
          exact absurd hhd (by
            intro hcon
            exact hcns ⟨by omega, by omega⟩))
        h
      refine ⟨hres.1, ?_⟩
      intro x hx
      exact List.mem_cons_of_mem _ (hres.2 x hx)


theorem dropWhile_sub {p : Nat → Bool} {l : List Nat} :
    ∀ x ∈ l.dropWhile p, x ∈ l := by
  intro x hx
  exact (List.dropWhile_sublist p).subset hx

theorem wfArr_forall : ∀ {l : List PyJson},
    wfArr l = true ↔ ∀ x ∈ l, wfJ x = true := by
  intro l
  induction l with
  | nil => simp [wfArr]
  | cons x t ih =>
    rw [wfArr, Bool.and_eq_true, ih]
    simp

theorem wfObj_forall : ∀ {l : List (PyStr × PyJson)},
    wfObj l = true ↔ ∀ kv ∈ l, wfStr kv.1 = true ∧ wfJ kv.2 = true := by
  intro l
  induction l with
  | nil => simp [wfObj]
  | cons kv t ih =>
    obtain ⟨k, v⟩ := kv
    rw [wfObj]
    simp only [Bool.and_eq_true, ih]
    constructor
    · rintro ⟨⟨h1, h2⟩, h3⟩ kv2 hkv2
      rcases List.mem_cons.mp hkv2 with rfl | hm
      · exact ⟨h1, h2⟩
      · exact h3 kv2 hm
    · intro hall
      exact ⟨⟨(hall (k, v) (List.mem_cons_self _ _)).1,
        (hall (k, v) (List.mem_cons_self _ _)).2⟩,
        fun kv2 hm => hall kv2 (List.mem_cons_of_mem _ hm)⟩

theorem dictInsert_mem {d : List (PyStr × PyJson)} {k : PyStr} {v : PyJson}
    {kv : PyStr × PyJson} (h : kv ∈ dictInsert d k v) : kv ∈ d ∨ kv = (k, v) := by
  induction d with
  | nil =>
    rw [dictInsert] at h
    simp at h
    exact Or.inr h
  | cons kv0 t ih =>
    obtain ⟨k0, v0⟩ := kv0
    rw [dictInsert] at h
    split_ifs at h with hk
    · rcases List.mem_cons.mp h with rfl | hm
      · exact Or.inr (by rw [hk])
      · exact Or.inl (List.mem_cons_of_mem _ hm)
    · rcases List.mem_cons.mp h with rfl | hm
      · exact Or.inl (List.mem_cons_self _ _)
      · rcases ih hm with h2 | h2
        · exact Or.inl (List.mem_cons_of_mem _ h2)
        · exact Or.inr h2

theorem dictInsert_any_key {d : List (PyStr × PyJson)} {k x : PyStr} {v : PyJson}
    (h : (dictInsert d k v).any (fun kv => kv.1 == x) = true) :
    d.any (fun kv => kv.1 == x) = true ∨ k = x := by
  rw [List.any_eq_true] at h
  obtain ⟨kv, hm, hkv⟩ := h
  rcases dictInsert_mem hm with h2 | h2
  · exact Or.inl (List.any_eq_true.mpr ⟨kv, h2, hkv⟩)
  · subst h2
    simp only [beq_iff_eq] at hkv
    exact Or.inr hkv

theorem dictInsert_nodup {d : List (PyStr × PyJson)} {k : PyStr} {v : PyJson}
    (h : nodupKeys d = true) : nodupKeys (dictInsert d k v) = true := by
  induction d with
  | nil => rfl
  | cons kv0 t ih =>
    obtain ⟨k0, v0⟩ := kv0
    rw [nodupKeys, Bool.and_eq_true] at h
    rw [dictInsert]
    split_ifs with hk
    · rw [nodupKeys, Bool.and_eq_true]
      exact h
    · rw [nodupKeys, Bool.and_eq_true]
      refine ⟨?_, ih h.2⟩
      simp only [Bool.not_eq_true', List.any_eq_false]
      intro x hx
      rcases dictInsert_mem hx with h2 | h2
      · have h1 := h.1
        simp only [Bool.not_eq_true', List.any_eq_false] at h1
        exact h1 x h2
      · rw [h2]
        simp only [beq_iff_eq]
        exact fun he => hk he.symm

theorem foldl_dictInsert_mem : ∀ {pairs acc : List (PyStr × PyJson)}
    {kv : PyStr × PyJson},
    kv ∈ pairs.foldl (fun d kv2 => dictInsert d kv2.1 kv2.2) acc →
    kv ∈ acc ∨ kv ∈ pairs := by
  intro pairs
  induction pairs with
  | nil =>
    intro acc kv h
    exact Or.inl (by simpa using h)
  | cons kv0 t ih =>
    intro acc kv h
    rw [List.foldl_cons] at h
    rcases ih h with h2 | h2
    · rcases dictInsert_mem h2 with h3 | h3
      · exact Or.inl h3
      · right
        rw [h3]
        simp
    · exact Or.inr (List.mem_cons_of_mem _ h2)

theorem dictOfPairs_mem {pairs : List (PyStr × PyJson)} {kv : PyStr × PyJson}
    (h : kv ∈ dictOfPairs pairs) : kv ∈ pairs := by
  unfold dictOfPairs at h
  rcases foldl_dictInsert_mem h with h2 | h2
  · exact absurd h2 (by simp)
  · exact h2

theorem foldl_dictInsert_nodup : ∀ {pairs acc : List (PyStr × PyJson)},
    nodupKeys acc = true →
    nodupKeys (pairs.foldl (fun d kv => dictInsert d kv.1 kv.2) acc) = true := by
  intro pairs
  induction pairs with
  | nil =>
    intro acc h
    simpa using h
  | cons kv0 t ih =>
    intro acc h
    rw [List.foldl_cons]
    exact ih (dictInsert_nodup h)

theorem dictOfPairs_nodup (pairs : List (PyStr × PyJson)) :
    nodupKeys (dictOfPairs pairs) = true :=
  foldl_dictInsert_nodup rfl

theorem numFrac_sub {s : List Nat} : ∀ x ∈ (numFrac s).2, x ∈ s := by
  intro x hx
  rw [numFrac.eq_def] at hx
  split at hx
  · rename_i t
    split at hx
    · exact hx
    · exact List.mem_cons_of_mem _ (dropWhile_sub x hx)
  · exact hx

theorem numExpSign_sub {s : List Nat} : ∀ x ∈ (numExpSign s).2, x ∈ s := by
  intro x hx
  rw [numExpSign.eq_def] at hx
  split at hx
  · rename_i c r
    split_ifs at hx
    · exact List.mem_cons_of_mem _ hx
    · exact hx
  · exact hx

theorem numExp_sub {s : List Nat} : ∀ x ∈ (numExp s).2, x ∈ s := by
  intro x hx
  rw [numExp.eq_def] at hx
  split at hx
  · rename_i e t
    split_ifs at hx
    · split at hx
      · exact hx
      · rename_i hds
        refine List.mem_cons_of_mem _ (numExpSign_sub x ?_)
        exact dropWhile_sub x hx
    · exact hx
  · exact hx

theorem numAfterInt_sub (ip : List Nat) {s : List Nat} :
    ∀ x ∈ (numAfterInt ip s).2.2, x ∈ s := by
  intro x hx
  unfold numAfterInt at hx
  exact numFrac_sub x (numExp_sub x hx)

theorem matchNumber_rest_sub {s lex : List Nat} {isF : Bool} {rest : List Nat}
    (h : matchNumber s = some (lex, isF, rest)) : ∀ x ∈ rest, x ∈ s := by
  intro x hx
  rw [matchNumber.eq_def] at h
  split at h
  · rename_i s1
    split at h
    · rename_i t
      rcases hnum : numAfterInt [45, 48] t with ⟨lex2, isF2, rest2⟩
      rw [hnum] at h
      simp only [Option.some.injEq, Prod.mk.injEq] at h
      obtain ⟨rfl, rfl, rfl⟩ := h
      have := numAfterInt_sub [45, 48] x (by rw [hnum]; exact hx)
      exact List.mem_cons_of_mem _ (List.mem_cons_of_mem _ this)
    · rename_i c t hne
      split_ifs at h
      rcases hnum : numAfterInt (45 :: c :: t.takeWhile isDigit) (t.dropWhile isDigit)
        with ⟨lex2, isF2, rest2⟩
      rw [hnum] at h
      simp only [Option.some.injEq, Prod.mk.injEq] at h
      obtain ⟨rfl, rfl, rfl⟩ := h
      have := numAfterInt_sub (45 :: c :: t.takeWhile isDigit) x (by rw [hnum]; exact hx)
      exact List.mem_cons_of_mem _ (List.mem_cons_of_mem _ (dropWhile_sub x this))
    · exact absurd h (by simp)
  · rename_i t
    rcases hnum : numAfterInt [48] t with ⟨lex2, isF2, rest2⟩
    rw [hnum] at h
    simp only [Option.some.injEq, Prod.mk.injEq] at h
    obtain ⟨rfl, rfl, rfl⟩ := h
    have := numAfterInt_sub [48] x (by rw [hnum]; exact hx)
    exact List.mem_cons_of_mem _ this
  · rename_i c t hne45 hne48
    split_ifs at h
    rcases hnum : numAfterInt (c :: t.takeWhile isDigit) (t.dropWhile isDigit)
      with ⟨lex2, isF2, rest2⟩
    rw [hnum] at h
    simp only [Option.some.injEq, Prod.mk.injEq] at h
    obtain ⟨rfl, rfl, rfl⟩ := h
    have := numAfterInt_sub (c :: t.takeWhile isDigit) x (by rw [hnum]; exact hx)
    exact List.mem_cons_of_mem _ (dropWhile_sub x this)
  · exact absurd h (by simp)

theorem matchNumber_self {s lex : List Nat} {rest : List Nat}
    (h : matchNumber s = some (lex, true, rest)) : isFloatTok lex = true := by
  have hsh := matchNumber_shape h rfl
  have h2 := @matchNumber_floatShape lex [] hsh trivial
  rw [List.append_nil] at h2
  simp [isFloatTok, h2]

theorem scanValue_succ (f : Nat) (s : List Nat) :
    scanValue (f + 1) s =
      match s with
      | [] => .err "Expecting value" []
      | c :: t =>
        if c = 34 then
          match scanString (t.length + 1) (34 :: t) t [] with
          | .ok str rest => .ok (.str str) rest
          | .err m r => .err m r
        else if c = 123 then
          match t.dropWhile isWs with
          | 125 :: t2 => .ok (.obj []) t2
          | 34 :: t2 => scanObjectBody f t2 []
          | r1 => .err "Expecting property name enclosed in double quotes" r1
        else if c = 91 then
          match t.dropWhile isWs with
          | 93 :: t2 => .ok (.arr []) t2
          | r1 => scanArrayBody f r1 []
        else if s.take 4 = pyStr "null" then .ok .null (s.drop 4)
        else if s.take 4 = pyStr "true" then .ok (.bool true) (s.drop 4)
        else if s.take 5 = pyStr "false" then .ok (.bool false) (s.drop 5)
        else
          match matchNumber s with
          | some (lex, isF, rest) =>
            if isF then .ok (.float lex) rest else .ok (.int (pyIntOfLex lex)) rest
          | none =>
            if s.take 3 = pyStr "NaN" then .ok (.float (pyStr "NaN")) (s.drop 3)
            else if s.take 8 = pyStr "Infinity" then
              .ok (.float (pyStr "Infinity")) (s.drop 8)
            else if s.take 9 = pyStr "-Infinity" then
              .ok (.float (pyStr "-Infinity")) (s.drop 9)
            else .err "Expecting value" s := rfl

theorem scanArrayBody_succ (f : Nat) (s : List Nat) (acc : List PyJson) :
    scanArrayBody (f + 1) s acc =
      match scanValue f s with
      | .err m r => .err m r
      | .ok v rest =>
        match rest.dropWhile isWs with
        | 93 :: t => .ok (.arr (acc ++ [v])) t
        | 44 :: t => scanArrayBody f (t.dropWhile isWs) (acc ++ [v])
        | r2 => .err "Expecting ',' delimiter" r2 := rfl

theorem scanObjectBody_succ (f : Nat) (s : List Nat)
    (pairs : List (PyStr × PyJson)) :
    scanObjectBody (f + 1) s pairs =
      match scanString (s.length + 1) (34 :: s) s [] with
      | .err m r => .err m r
      | .ok key rest =>
        match rest.dropWhile isWs with
        | 58 :: t3 =>
          (match scanValue f (t3.dropWhile isWs) with
           | .err m r => .err m r
           | .ok v rest2 =>
             match rest2.dropWhile isWs with
             | 125 :: t5 => .ok (.obj (dictOfPairs (pairs ++ [(key, v)]))) t5
             | 44 :: t5 =>
               (match t5.dropWhile isWs with
                | 34 :: t6 => scanObjectBody f t6 (pairs ++ [(key, v)])
                | r5 => .err "Expecting property name enclosed in double quotes" r5)
             | r4 => .err "Expecting ',' delimiter" r4)
        | r2 => .err "Expecting ':' delimiter" r2 := rfl

theorem scan_wf : ∀ fuel : Nat,
    (∀ (s : List Nat) (v : PyJson) (rest : List Nat),
      (∀ c ∈ s, isScalar c = true) → scanValue fuel s = .ok v rest →
      wfJ v = true ∧ ∀ c ∈ rest, c ∈ s) ∧
    (∀ (s : List Nat) (acc : List PyJson) (v : PyJson) (rest : List Nat),
      (∀ c ∈ s, isScalar c = true) → (∀ x ∈ acc, wfJ x = true) →
      scanArrayBody fuel s acc = .ok v rest →
      wfJ v = true ∧ ∀ c ∈ rest, c ∈ s) ∧
    (∀ (s : List Nat) (pairs : List (PyStr × PyJson)) (v : PyJson) (rest : List Nat),
      (∀ c ∈ s, isScalar c = true) →
      (∀ kv ∈ pairs, wfStr kv.1 = true ∧ wfJ kv.2 = true) →
      scanObjectBody fuel s pairs = .ok v rest →
      wfJ v = true ∧ ∀ c ∈ rest, c ∈ s) := by
  intro fuel
  induction fuel with
  | zero =>
    refine ⟨?_, ?_, ?_⟩
    · intro s v rest _ h
      simp [scanValue] at h
    · intro s acc v rest _ _ h
      simp [scanArrayBody] at h
    · intro s pairs v rest _ _ h
      simp [scanObjectBody] at h
  | succ f ih =>
    obtain ⟨ihV, ihA, ihO⟩ := ih
    refine ⟨?_, ?_, ?_⟩
    · -- scanValue
      intro s v rest hs h
      rw [scanValue_succ] at h
      split at h
      · exact absurd h (by simp)
      rename_i c t
      split at h
      · -- string
        rename_i h34
        split at h
        case _ str rest1 hscan =>
          simp only [JRes.ok.injEq] at h
          obtain ⟨h1, h2⟩ := h
          subst h1
          subst h2
          have hws := scanString_wf (t.length + 1) (34 :: t) t [] str rest1
            (fun x hx => hs x (List.mem_cons_of_mem _ hx))
            (by intro x hx; exact absurd hx (by simp))
            rfl
            (fun hhd => absurd hhd (by simp [headHi]))
            hscan
          refine ⟨wfStr_intro hws.1.1 hws.1.2, ?_⟩
          intro x hx
          exact List.mem_cons_of_mem _ (hws.2 x hx)
        case _ m r hscan =>
          exact absurd h (by simp)
      rename_i h34
      split at h
      · -- object
        rename_i h123
        split at h
        case _ t2 heq =>
          simp only [JRes.ok.injEq] at h
          obtain ⟨h1, h2⟩ := h
          subst h1
          subst h2
          refine ⟨rfl, ?_⟩
          intro x hx
          have : x ∈ t.dropWhile isWs := by
            rw [heq]
            exact List.mem_cons_of_mem _ hx
          exact List.mem_cons_of_mem _ (dropWhile_sub x this)
        case _ t2 heq =>
          have hsub : ∀ x ∈ t2, x ∈ c :: t := by
            intro x hx
            have : x ∈ t.dropWhile isWs := by
              rw [heq]
              exact List.mem_cons_of_mem _ hx
            exact List.mem_cons_of_mem _ (dropWhile_sub x this)
          have hres := ihO t2 [] v rest (fun x hx => hs x (hsub x hx))
            (by intro kv hkv; exact absurd hkv (by simp))
            h
          exact ⟨hres.1, fun x hx => hsub x (hres.2 x hx)⟩
        case _ r1 hn1 hn2 =>
          exact absurd h (by simp)
      rename_i h123
      split at h
      · -- array
        rename_i h91
        split at h
        case _ t2 heq =>
          simp only [JRes.ok.injEq] at h
          obtain ⟨h1, h2⟩ := h
          subst h1
          subst h2
          refine ⟨rfl, ?_⟩
          intro x hx
          have : x ∈ t.dropWhile isWs := by
            rw [heq]
            exact List.mem_cons_of_mem _ hx
          exact List.mem_cons_of_mem _ (dropWhile_sub x this)
        case _ r1 hn1 =>
          have hsub : ∀ x ∈ t.dropWhile isWs, x ∈ c :: t := by
            intro x hx
            exact List.mem_cons_of_mem _ (dropWhile_sub x hx)
          have hres := ihA (t.dropWhile isWs) [] v rest (fun x hx => hs x (hsub x hx))
            (by intro y hy; exact absurd hy (by simp))
            h
          exact ⟨hres.1, fun x hx => hsub x (hres.2 x hx)⟩
      rename_i h91
      split at h
      · -- null
        simp only [JRes.ok.injEq] at h
        obtain ⟨h1, h2⟩ := h
        subst h1
        subst h2
        exact ⟨rfl, fun x hx => List.drop_subset _ _ hx⟩
      rename_i hnull
      split at h
      · simp only [JRes.ok.injEq] at h
        obtain ⟨h1, h2⟩ := h
        subst h1
        subst h2
        exact ⟨rfl, fun x hx => List.drop_subset _ _ hx⟩
      rename_i htrue
      split at h
      · simp only [JRes.ok.injEq] at h
        obtain ⟨h1, h2⟩ := h
        subst h1
        subst h2
        exact ⟨rfl, fun x hx => List.drop_subset _ _ hx⟩
      rename_i hfalse
      split at h
      case _ lex isF rest1 hnum =>
        split at h
        · -- float lexeme
          rename_i hisF
          simp only [JRes.ok.injEq] at h
          obtain ⟨h1, h2⟩ := h
          subst h1
          subst h2
          subst hisF
          refine ⟨matchNumber_self hnum, ?_⟩
          exact matchNumber_rest_sub hnum
        · simp only [JRes.ok.injEq] at h
          obtain ⟨h1, h2⟩ := h
          subst h1
          subst h2
          exact ⟨rfl, matchNumber_rest_sub hnum⟩
      case _ hnum =>
        split at h
        · simp only [JRes.ok.injEq] at h
          obtain ⟨h1, h2⟩ := h
          subst h1
          subst h2
          exact ⟨by decide, fun x hx => List.drop_subset _ _ hx⟩
        rename_i hnan
        split at h
        · simp only [JRes.ok.injEq] at h
          obtain ⟨h1, h2⟩ := h
          subst h1
          subst h2
          exact ⟨by decide, fun x hx => List.drop_subset _ _ hx⟩
        rename_i hinf
        split at h
        · simp only [JRes.ok.injEq] at h
          obtain ⟨h1, h2⟩ := h
          subst h1
          subst h2
          exact ⟨by decide, fun x hx => List.drop_subset _ _ hx⟩
        · exact absurd h (by simp)
    · -- scanArrayBody
      intro s acc v rest hs hacc h
      rw [scanArrayBody_succ] at h
      split at h
      case _ m r hscan =>
        exact absurd h (by simp)
      case _ v0 rest0 hscan =>
        have hv0 := ihV s v0 rest0 hs hscan
        split at h
        case _ t2 heq =>
          simp only [JRes.ok.injEq] at h
          obtain ⟨h1, h2⟩ := h
          subst h1
          subst h2
          have hsub : ∀ x ∈ t2, x ∈ s := by
            intro x hx
            have hmem : x ∈ rest0.dropWhile isWs := by
              rw [heq]
              exact List.mem_cons_of_mem _ hx
            exact hv0.2 x (dropWhile_sub x hmem)
          refine ⟨?_, hsub⟩
          rw [wfJ]
          rw [wfArr_forall]
          intro y hy
          rcases List.mem_append.mp hy with hm | hm
          · exact hacc y hm
          · rw [List.mem_singleton.mp hm]
            exact hv0.1
        case _ t2 heq =>
          have hsub : ∀ x ∈ t2.dropWhile isWs, x ∈ s := by
            intro x hx
            have hmem : x ∈ rest0.dropWhile isWs := by
              rw [heq]
              exact List.mem_cons_of_mem _ (dropWhile_sub x hx)
            exact hv0.2 x (dropWhile_sub x hmem)
          have hres := ihA (t2.dropWhile isWs) (acc ++ [v0]) v rest
            (fun x hx => hs x (hsub x hx))
            (by
              intro y hy
              rcases List.mem_append.mp hy with hm | hm
              · exact hacc y hm
              · rw [List.mem_singleton.mp hm]
                exact hv0.1)
            h
          exact ⟨hres.1, fun x hx => hsub x (hres.2 x hx)⟩
        case _ r2 hn1 hn2 =>
          exact absurd h (by simp)
    · -- scanObjectBody
      intro s pairs v rest hs hpairs h
      rw [scanObjectBody_succ] at h
      split at h
      case _ m r hscan =>
        exact absurd h (by simp)
      case _ key rest0 hscan =>
        have hkey := scanString_wf (s.length + 1) (34 :: s) s [] key rest0
          hs
          (by intro x hx; exact absurd hx (by simp))
          rfl
          (fun hhd => absurd hhd (by simp [headHi]))
          hscan
        split at h
        case _ t3 heq =>
          have hsubt3 : ∀ x ∈ t3.dropWhile isWs, x ∈ s := by
            intro x hx
            have hmem : x ∈ rest0.dropWhile isWs := by
              rw [heq]
              exact List.mem_cons_of_mem _ (dropWhile_sub x hx)
            exact hkey.2 x (dropWhile_sub x hmem)
          split at h
          case _ m r hscanv =>
            exact absurd h (by simp)
          case _ v0 rest2 hscanv =>
            have hv0 := ihV (t3.dropWhile isWs) v0 rest2
              (fun x hx => hs x (hsubt3 x hx)) hscanv
            have hsubr2 : ∀ x ∈ rest2.dropWhile isWs, x ∈ s := by
              intro x hx
              exact hsubt3 x (hv0.2 x (dropWhile_sub x hx))
            split at h
            case _ t5 heq2 =>
              simp only [JRes.ok.injEq] at h
              obtain ⟨h1, h2⟩ := h
              subst h1
              subst h2
              refine ⟨?_, ?_⟩
              · rw [wfJ]
                rw [Bool.and_eq_true]
                refine ⟨dictOfPairs_nodup _, ?_⟩
                rw [wfObj_forall]
                intro kv hkv
                rcases List.mem_append.mp (dictOfPairs_mem hkv) with hm | hm
                · exact hpairs kv hm
                · rw [List.mem_singleton.mp hm]
                  exact ⟨wfStr_intro hkey.1.1 hkey.1.2, hv0.1⟩
              · intro x hx
                refine hsubr2 x ?_
                rw [heq2]
                exact List.mem_cons_of_mem _ hx
            case _ t5 heq2 =>
              have hsubt5 : ∀ x ∈ t5.dropWhile isWs, x ∈ s := by
                intro x hx
                refine hsubr2 x ?_
                rw [heq2]
                exact List.mem_cons_of_mem _ (dropWhile_sub x hx)
              split at h
              case _ t6 heq3 =>
                have hsubt6 : ∀ x ∈ t6, x ∈ s := by
                  intro x hx
                  refine hsubt5 x ?_
                  rw [heq3]
                  exact List.mem_cons_of_mem _ hx
                have hres := ihO t6 (pairs ++ [(key, v0)]) v rest
                  (fun x hx => hs x (hsubt6 x hx))
                  (by
                    intro kv hkv
                    rcases List.mem_append.mp hkv with hm | hm
                    · exact hpairs kv hm
                    · rw [List.mem_singleton.mp hm]
                      exact ⟨wfStr_intro hkey.1.1 hkey.1.2, hv0.1⟩)
                  h
                exact ⟨hres.1, fun x hx => hsubt6 x (hres.2 x hx)⟩
              case _ r5 hn =>
                exact absurd h (by simp)
            case _ r4 hn1 hn2 =>
              exact absurd h (by simp)
        case _ r2 hn =>
          exact absurd h (by simp)

theorem jsonLoads_wf {s : PyStr} {v : PyJson} (hs : validText s = true)
    (h : jsonLoads s = .ok v) : wfJ v = true := by
  unfold jsonLoads at h
  split at h
  · exact absurd h (by simp)
  case _ v0 rest hscan =>
    split at h
    · simp only [Except.ok.injEq] at h
      subst h
      have hsc : ∀ c ∈ s.dropWhile isWs, isScalar c = true := by
        intro x hx
        simp only [validText, List.all_eq_true] at hs
        exact hs x (dropWhile_sub x hx)
      exact ((scan_wf _).1 _ v0 rest hsc hscan).1
    · exact absurd h (by simp)

/-- C9: for every valid JSON value decoded from the primary stream and
returned as a success, re-serializing it into the reply text block and
decoding that text yields a structurally identical value: decode → encode →
decode is a fixed point. -/
theorem loads_dumps_roundtrip (s : PyStr) (v : PyJson) (hs : validText s = true)
    (hload : jsonLoads s = .ok v) :
    jsonLoads (jsonDumps2 v) = .ok v :=
  jsonLoads_dumps v (jsonLoads_wf hs hload)

/-- Witness for C9 on the concrete document `[1, \"a\"]`. -/
theorem loads_dumps_roundtrip_witness :
    jsonLoads (jsonDumps2 (.arr [.int 1, .str (pyStr "a")])) =
      .ok (.arr [.int 1, .str (pyStr "a")]) :=
  loads_dumps_roundtrip (pyStr "[1, \"a\"]") (.arr [.int 1, .str (pyStr "a")])
    (by decide) (by rfl)

/-!
## Claim theorems about the server model
-/

theorem asStrList_map (l : List PyStr) : asStrList (l.map .str) = some l := by
  induction l with
  | nil => rfl
  | cons s t ih =>
    rw [List.map_cons, asStrList, ih]
    rfl

/-- C8: for every tool name other than check_directory and check_file,
dispatching returns exactly one text content block whose text equals
"Unknown tool: <name>", and no child process is spawned for that request. -/
theorem unknown_tool_reply (cliPath : PyStr) (child : List PyStr → ProcessResult)
    (name : PyStr) (arguments : List (PyStr × PyJson))
    (h1 : name ≠ pyStr "check_directory") (h2 : name ≠ pyStr "check_file") :
    handle_call_tool cliPath child name arguments =
      .ok ([⟨pyStr "Unknown tool: " ++ name⟩], []) := by
  unfold handle_call_tool
  rw [if_neg h1, if_neg h2]

/-- Witness for C8 at the concrete tool name "count_classes". -/
theorem unknown_tool_reply_witness :
    handle_call_tool (pyStr "/cli.js") (fun _ => ⟨0, [], []⟩)
      (pyStr "count_classes") [] =
      .ok ([⟨pyStr "Unknown tool: " ++ pyStr "count_classes"⟩], []) :=
  unknown_tool_reply (pyStr "/cli.js") (fun _ => ⟨0, [], []⟩)
    (pyStr "count_classes") [] (by decide) (by decide)

/-- C7: whenever the captured primary stream decodes as a valid JSON
document, run_cli_command returns that decoded value as a success, regardless
of the child process's exit code and of any text on the secondary stream. -/
theorem valid_stdout_success (cliPath : PyStr) (child : List PyStr → ProcessResult)
    (args : List PyStr) (v : PyJson)
    (h : jsonLoads ((child (buildCmd cliPath args)).stdout) = .ok v) :
    (run_cli_command cliPath child args).1 = .ok v := by
  unfold run_cli_command
  simp only []
  rw [if_neg, h]
  intro hcon
  rw [hcon.2.2] at h
  exact absurd h (by simp [jsonLoads, scanValue])

/-- Witness for C7: exit code 2 and a non-empty stderr are ignored once
stdout parses. -/
theorem valid_stdout_success_witness :
    (run_cli_command (pyStr "/cli.js")
      (fun _ => ⟨2, pyStr "[1]", pyStr "warning"⟩) []).1 = .ok (.arr [.int 1]) :=
  valid_stdout_success (pyStr "/cli.js") (fun _ => ⟨2, pyStr "[1]", pyStr "warning"⟩)
    [] (.arr [.int 1]) (by rfl)

theorem check_file_spawn (cliPath css file : PyStr)
    (child : List PyStr → ProcessResult) :
    ∃ reply : List TextContent,
      handle_call_tool cliPath child (pyStr "check_file")
        [(pyStr "css_path", .str css), (pyStr "file", .str file)] =
        .ok (reply, [[pyStr "node", cliPath, pyStr "--json", pyStr "--json",
          pyStr "--path", css, file]]) := by
  unfold handle_call_tool
  rw [if_neg (by decide), if_pos rfl]
  rw [show lookupKey [(pyStr "css_path", PyJson.str css), (pyStr "file", PyJson.str file)]
      (pyStr "css_path") = some (.str css) from rfl]
  rw [show lookupKey [(pyStr "css_path", PyJson.str css), (pyStr "file", PyJson.str file)]
      (pyStr "file") = some (.str file) from rfl]
  rcases hr : (run_cli_command cliPath child
      [pyStr "--json", pyStr "--path", css, file]).1 with e | result
  · exact ⟨_, by simp only []; rw [hr]; rfl⟩
  · rcases hp : pyGetItem result (pyStr "summary") with m | x
    · exact ⟨_, by simp only []; rw [hr]; simp only []; rw [hp]; rfl⟩
    · exact ⟨_, by simp only []; rw [hr]; simp only []; rw [hp]; rfl⟩

theorem check_directory_spawn (cliPath css : PyStr) (files : List PyStr) (nf : Bool)
    (child : List PyStr → ProcessResult) :
    ∃ reply : List TextContent,
      handle_call_tool cliPath child (pyStr "check_directory")
        [(pyStr "css_path", .str css), (pyStr "files", .arr (files.map .str)),
          (pyStr "no_filter", .bool nf)] =
        .ok (reply, [[pyStr "node", cliPath, pyStr "--json", pyStr "--json",
          pyStr "--path", css] ++ (if nf then [pyStr "--no-filter"] else []) ++ files]) := by
  unfold handle_call_tool
  rw [if_pos rfl]
  rw [show lookupKey [(pyStr "css_path", PyJson.str css),
      (pyStr "files", PyJson.arr (files.map .str)),
      (pyStr "no_filter", PyJson.bool nf)] (pyStr "css_path") = some (.str css) from rfl]
  rw [show lookupKey [(pyStr "css_path", PyJson.str css),
      (pyStr "files", PyJson.arr (files.map .str)),
      (pyStr "no_filter", PyJson.bool nf)] (pyStr "files") =
      some (.arr (files.map .str)) from rfl]
  rw [show lookupKey [(pyStr "css_path", PyJson.str css),
      (pyStr "files", PyJson.arr (files.map .str)),
      (pyStr "no_filter", PyJson.bool nf)] (pyStr "no_filter") =
      some (.bool nf) from rfl]
  simp only []
  rw [asStrList_map]
  simp only [Option.getD_some]
  simp only [show pyTruthy (.bool nf) = nf from rfl]
  rcases hr : (run_cli_command cliPath child
      ([pyStr "--json", pyStr "--path", css] ++
        (if nf then [pyStr "--no-filter"] else []) ++ files)).1 with e | result
  · refine ⟨[⟨pyStr "Error: " ++ e⟩], ?_⟩
    simp only []
    rfl
  · rcases hp1 : pyGetItem result (pyStr "summary") with m | x1
    · refine ⟨[⟨pyStr "Error: " ++ m⟩], ?_⟩
      simp only []
      rw [hp1]
      rfl
    · rcases hp2 : pyGetItem result (pyStr "invalidClasses") with m | x2
      · refine ⟨[⟨pyStr "Error: " ++ m⟩], ?_⟩
        simp only []
        rw [hp1]
        simp only []
        rw [hp2]
        rfl
      · rcases hp3 : pyGetItem result (pyStr "byFile") with m | x3
        · refine ⟨[⟨pyStr "Error: " ++ m⟩], ?_⟩
          simp only []
          rw [hp1]
          simp only []
          rw [hp2]
          simp only []
          rw [hp3]
          rfl
        · refine ⟨[⟨jsonDumps2 result⟩], ?_⟩
          simp only []
          rw [hp1]
          simp only []
          rw [hp2]
          simp only []
          rw [hp3]
          rfl

/-- C5 (amended): for check_directory and check_file the spawned vector is
exactly <node> <cli> --json --json --path <css> [--no-filter] <files...> —
the machine-readable flag appears twice, once from the tool handler's
argument list and once prepended by run_cli_command; the filter-disable flag
is present iff no_filter is truthy; the file arguments come last in caller
order. -/
theorem spawned_cmd_shape (cliPath css file : PyStr) (files : List PyStr) (nf : Bool)
    (child : List PyStr → ProcessResult) :
    (∃ reply, handle_call_tool cliPath child (pyStr "check_directory")
        [(pyStr "css_path", .str css), (pyStr "files", .arr (files.map .str)),
          (pyStr "no_filter", .bool nf)] =
        .ok (reply, [[pyStr "node", cliPath, pyStr "--json", pyStr "--json",
          pyStr "--path", css] ++ (if nf then [pyStr "--no-filter"] else []) ++ files])) ∧
    (∃ reply, handle_call_tool cliPath child (pyStr "check_file")
        [(pyStr "css_path", .str css), (pyStr "file", .str file)] =
        .ok (reply, [[pyStr "node", cliPath, pyStr "--json", pyStr "--json",
          pyStr "--path", css, file]])) :=
  ⟨check_directory_spawn cliPath css files nf child, check_file_spawn cliPath css file child⟩

/-- Counterexample to C5 as stated: the machine-readable flag appears twice
in the spawned command, not once. -/
theorem json_flag_twice :
    handle_call_tool (pyStr "/cli.js") (fun _ => ⟨0, pyStr "\x7b\x7d", []⟩)
      (pyStr "check_file")
      [(pyStr "css_path", .str (pyStr "a.css")), (pyStr "file", .str (pyStr "b.tsx"))] =
      .ok ([⟨pyStr "Error: " ++ (39 :: (pyStr "summary" ++ [39]))⟩],
        [[pyStr "node", pyStr "/cli.js", pyStr "--json", pyStr "--json",
          pyStr "--path", pyStr "a.css", pyStr "b.tsx"]]) ∧
    [pyStr "node", pyStr "/cli.js", pyStr "--json", pyStr "--json",
      pyStr "--path", pyStr "a.css", pyStr "b.tsx"].count (pyStr "--json") = 2 :=
  ⟨by rfl, by decide⟩

/-- C3 (amended): path arguments are placed into the child-process argument
vector verbatim; the server applies no home-directory expansion. -/
theorem paths_passed_verbatim (cliPath css file : PyStr) (files : List PyStr)
    (nf : Bool) (child : List PyStr → ProcessResult) :
    (∃ reply cmd, handle_call_tool cliPath child (pyStr "check_file")
        [(pyStr "css_path", .str css), (pyStr "file", .str file)] =
        .ok (reply, [cmd]) ∧ css ∈ cmd ∧ file ∈ cmd) ∧
    (∃ reply cmd, handle_call_tool cliPath child (pyStr "check_directory")
        [(pyStr "css_path", .str css), (pyStr "files", .arr (files.map .str)),
          (pyStr "no_filter", .bool nf)] =
        .ok (reply, [cmd]) ∧ css ∈ cmd ∧ ∀ f ∈ files, f ∈ cmd) := by
  constructor
  · obtain ⟨reply, h⟩ := check_file_spawn cliPath css file child
    exact ⟨reply, _, h, by simp, by simp⟩
  · obtain ⟨reply, h⟩ := check_directory_spawn cliPath css files nf child
    refine ⟨reply, _, h, by simp, ?_⟩
    intro f hf
    simp [hf]

/-- Counterexample to C3 as stated: a css_path beginning with '~' reaches
the argument vector with the tilde intact — no expansion happens. -/
theorem tilde_not_expanded :
    handle_call_tool (pyStr "/cli.js") (fun _ => ⟨0, pyStr "\x7b\x7d", []⟩)
      (pyStr "check_file")
      [(pyStr "css_path", .str (pyStr "~/styles.css")),
        (pyStr "file", .str (pyStr "src/app.tsx"))] =
      .ok ([⟨pyStr "Error: " ++ (39 :: (pyStr "summary" ++ [39]))⟩],
        [[pyStr "node", pyStr "/cli.js", pyStr "--json", pyStr "--json",
          pyStr "--path", pyStr "~/styles.css", pyStr "src/app.tsx"]]) ∧
    (pyStr "~/styles.css").head? = some 126 :=
  ⟨by rfl, by decide⟩

/-- C2 (amended): with empty stdout, exit code 1 and "file not found:
styles.css" on stderr, the reply is one text block reading "Error: Failed to
run CLI: CLI error: file not found: styles.css" — the inner RuntimeError is
re-wrapped by the outer except clause before the dispatcher prefixes
"Error: ". -/
theorem cli_error_reply_text (cliPath css : PyStr) (files : List PyStr)
    (child : List PyStr → ProcessResult)
    (h : child (buildCmd cliPath ([pyStr "--json", pyStr "--path", css] ++ files)) =
      ⟨1, [], pyStr "file not found: styles.css"⟩) :
    handle_call_tool cliPath child (pyStr "check_directory")
      [(pyStr "css_path", .str css), (pyStr "files", .arr (files.map .str))] =
      .ok ([⟨pyStr "Error: Failed to run CLI: CLI error: file not found: styles.css"⟩],
        [buildCmd cliPath ([pyStr "--json", pyStr "--path", css] ++ files)]) := by
  have hrun : run_cli_command cliPath child ([pyStr "--json", pyStr "--path", css] ++ files) =
      (.error (pyStr "Failed to run CLI: CLI error: " ++ pyStr "file not found: styles.css"),
        [buildCmd cliPath ([pyStr "--json", pyStr "--path", css] ++ files)]) := by
    unfold run_cli_command
    simp only []
    rw [h]
    rw [if_pos ⟨by decide, by decide, rfl⟩]
  unfold handle_call_tool
  rw [if_pos rfl]
  rw [show lookupKey [(pyStr "css_path", PyJson.str css),
      (pyStr "files", PyJson.arr (files.map .str))] (pyStr "css_path") =
      some (.str css) from rfl]
  rw [show lookupKey [(pyStr "css_path", PyJson.str css),
      (pyStr "files", PyJson.arr (files.map .str))] (pyStr "files") =
      some (.arr (files.map .str)) from rfl]
  simp only []
  rw [asStrList_map]
  simp only []
  rw [show lookupKey [(pyStr "css_path", PyJson.str css),
      (pyStr "files", PyJson.arr (files.map .str))] (pyStr "no_filter") = none from rfl]
  simp only [Option.getD_none]
  simp only [show pyTruthy (.bool false) = false from rfl]
  simp only [Bool.false_eq_true, if_false, List.append_nil]
  rw [hrun]
  simp only []
  rw [show pyStr "Error: " ++ (pyStr "Failed to run CLI: CLI error: " ++
      pyStr "file not found: styles.css") =
      pyStr "Error: Failed to run CLI: CLI error: file not found: styles.css" from by decide]

/-- Witness for C2 at a concrete child process. -/
theorem cli_error_reply_text_witness :
    handle_call_tool (pyStr "/cli.js")
      (fun _ => ⟨1, [], pyStr "file not found: styles.css"⟩)
      (pyStr "check_directory")
      [(pyStr "css_path", .str (pyStr "styles.css")),
        (pyStr "files", .arr [.str (pyStr "src.tsx")])] =
      .ok ([⟨pyStr "Error: Failed to run CLI: CLI error: file not found: styles.css"⟩],
        [buildCmd (pyStr "/cli.js")
          ([pyStr "--json", pyStr "--path", pyStr "styles.css"] ++ [pyStr "src.tsx"])]) := by
  have h := cli_error_reply_text (pyStr "/cli.js") (pyStr "styles.css") [pyStr "src.tsx"]
    (fun _ => ⟨1, [], pyStr "file not found: styles.css"⟩) (by rfl)
  exact h

/-- Counterexample to C2 as stated: the reply text carries the extra
"Failed to run CLI: " wrapping, so it is not "Error: CLI error: ...". -/
theorem cli_error_reply_has_wrapping :
    handle_call_tool (pyStr "/cli.js")
      (fun _ => ⟨1, [], pyStr "file not found: styles.css"⟩)
      (pyStr "check_file")
      [(pyStr "css_path", .str (pyStr "styles.css")),
        (pyStr "file", .str (pyStr "a.tsx"))] =
      .ok ([⟨pyStr "Error: Failed to run CLI: CLI error: file not found: styles.css"⟩],
        [[pyStr "node", pyStr "/cli.js", pyStr "--json", pyStr "--json",
          pyStr "--path", pyStr "styles.css", pyStr "a.tsx"]]) ∧
    pyStr "Error: Failed to run CLI: CLI error: file not found: styles.css" ≠
      pyStr "Error: CLI error: file not found: styles.css" :=
  ⟨by rfl, by decide⟩

/-- C4 (amended): required-field extraction happens before the try block,
so a missing css_path, files or file raises a KeyError that escapes the
dispatcher instead of being converted to a text block. -/
theorem missing_field_keyerror (cliPath : PyStr) (child : List PyStr → ProcessResult)
    (args : List (PyStr × PyJson)) :
    (lookupKey args (pyStr "css_path") = none →
      handle_call_tool cliPath child (pyStr "check_directory") args =
        .error (.keyError (pyStr "css_path")) ∧
      handle_call_tool cliPath child (pyStr "check_file") args =
        .error (.keyError (pyStr "css_path"))) ∧
    (∀ cssv, lookupKey args (pyStr "css_path") = some cssv →
      (lookupKey args (pyStr "files") = none →
        handle_call_tool cliPath child (pyStr "check_directory") args =
          .error (.keyError (pyStr "files"))) ∧
      (lookupKey args (pyStr "file") = none →
        handle_call_tool cliPath child (pyStr "check_file") args =
          .error (.keyError (pyStr "file")))) := by
  constructor
  · intro h
    constructor
    · unfold handle_call_tool
      rw [if_pos rfl, h]
    · unfold handle_call_tool
      rw [if_neg (by decide), if_pos rfl, h]
  · intro cssv hc
    constructor
    · intro h
      unfold handle_call_tool
      rw [if_pos rfl, hc]
      simp only []
      rw [h]
    · intro h
      unfold handle_call_tool
      rw [if_neg (by decide), if_pos rfl, hc]
      simp only []
      rw [h]

/-- Witness for C4 with an empty argument map. -/
theorem missing_field_keyerror_witness :
    handle_call_tool (pyStr "/cli.js") (fun _ => ⟨0, [], []⟩)
      (pyStr "check_directory") [] = .error (.keyError (pyStr "css_path")) :=
  ((missing_field_keyerror (pyStr "/cli.js") (fun _ => ⟨0, [], []⟩) []).1 (by rfl)).1

/-- Counterexample to C4 as stated: a KeyError escapes the dispatcher for a
known tool whose argument map lacks a required field. -/
theorem missing_field_escapes :
    handle_call_tool (pyStr "/cli.js") (fun _ => ⟨0, [], []⟩) (pyStr "check_file")
      [(pyStr "css_path", .str (pyStr "a.css"))] =
      .error (.keyError (pyStr "file")) := by
  rfl

/-- C1 (amended): with empty stdout and a nonzero exit code the outcome
depends on stderr: empty stderr falls through to JSON parsing of the empty
string (a ParseFailure), non-empty stderr raises the re-wrapped CLI error
(a ProcessFailure). -/
theorem emptyOut_nonzero_classification (cliPath : PyStr)
    (child : List PyStr → ProcessResult) (args : List PyStr)
    (hrc : (child (buildCmd cliPath args)).returncode ≠ 0)
    (hout : (child (buildCmd cliPath args)).stdout = []) :
    (run_cli_command cliPath child args).1 =
      if (child (buildCmd cliPath args)).stderr = [] then
        .error (pyStr "Failed to parse CLI output as JSON: Expecting value: line 1 column 1 (char 0)")
      else
        .error (pyStr "Failed to run CLI: CLI error: " ++
          (child (buildCmd cliPath args)).stderr) := by
  unfold run_cli_command
  simp only []
  by_cases hse : (child (buildCmd cliPath args)).stderr = []
  · rw [if_pos hse]
    rw [if_neg (by intro hcon; exact hcon.1 hse)]
    rw [hout]
    rfl
  · rw [if_neg hse, if_pos ⟨hse, hrc, hout⟩]

/-- Witness for C1 with non-empty stderr. -/
theorem emptyOut_nonzero_classification_witness :
    (run_cli_command (pyStr "/cli.js") (fun _ => ⟨1, [], pyStr "boom"⟩) []).1 =
      .error (pyStr "Failed to run CLI: CLI error: boom") := by
  have h := emptyOut_nonzero_classification (pyStr "/cli.js")
    (fun _ => ⟨1, [], pyStr "boom"⟩) [] (by decide) (by rfl)
  rw [h]
  rfl

/-- Counterexample to C1 as stated: empty stdout, exit code 1 and EMPTY
stderr produce the JSON ParseFailure wrapper, not the CLI-error
classification. -/
theorem emptyOut_nonzero_parse_failure :
    (run_cli_command (pyStr "/cli.js") (fun _ => ⟨1, [], []⟩) []).1 =
      .error (pyStr "Failed to parse CLI output as JSON: Expecting value: line 1 column 1 (char 0)") := by
  rfl

/-- C10: when the child exits 0 and its stdout decodes as a JSON object,
check_directory demands the keys summary, invalidClasses and byFile in that
order, replying "Error: '<key>'" for the first one missing, while check_file
only demands summary and replies with the pretty-printed document even when
byFile is absent. -/
theorem missing_keys_tool_replies (cliPath css file : PyStr) (files : List PyStr)
    (child : List PyStr → ProcessResult) (kvs : List (PyStr × PyJson))
    (hrc : ∀ cmd, (child cmd).returncode = 0)
    (hload : ∀ cmd, jsonLoads ((child cmd).stdout) = .ok (.obj kvs)) :
    (lookupKey kvs (pyStr "summary") = none →
      handle_call_tool cliPath child (pyStr "check_directory")
        [(pyStr "css_path", .str css), (pyStr "files", .arr (files.map .str))] =
        .ok ([⟨pyStr "Error: " ++ (39 :: (pyStr "summary" ++ [39]))⟩],
          [buildCmd cliPath ([pyStr "--json", pyStr "--path", css] ++ files)])) ∧
    ((lookupKey kvs (pyStr "summary")).isSome = true →
      lookupKey kvs (pyStr "invalidClasses") = none →
      handle_call_tool cliPath child (pyStr "check_directory")
        [(pyStr "css_path", .str css), (pyStr "files", .arr (files.map .str))] =
        .ok ([⟨pyStr "Error: " ++ (39 :: (pyStr "invalidClasses" ++ [39]))⟩],
          [buildCmd cliPath ([pyStr "--json", pyStr "--path", css] ++ files)])) ∧
    ((lookupKey kvs (pyStr "summary")).isSome = true →
      (lookupKey kvs (pyStr "invalidClasses")).isSome = true →
      lookupKey kvs (pyStr "byFile") = none →
      handle_call_tool cliPath child (pyStr "check_directory")
        [(pyStr "css_path", .str css), (pyStr "files", .arr (files.map .str))] =
        .ok ([⟨pyStr "Error: " ++ (39 :: (pyStr "byFile" ++ [39]))⟩],
          [buildCmd cliPath ([pyStr "--json", pyStr "--path", css] ++ files)])) ∧
    ((lookupKey kvs (pyStr "summary")).isSome = true →
      handle_call_tool cliPath child (pyStr "check_file")
        [(pyStr "css_path", .str css), (pyStr "file", .str file)] =
        .ok ([⟨jsonDumps2 (.obj kvs)⟩],
          [buildCmd cliPath [pyStr "--json", pyStr "--path", css, file]])) := by
  have hrun : ∀ args, run_cli_command cliPath child args =
      (.ok (.obj kvs), [buildCmd cliPath args]) := by
    intro args
    unfold run_cli_command
    simp only []
    rw [if_neg (by intro hcon; exact hcon.2.1 (hrc (buildCmd cliPath args)))]
    rw [hload (buildCmd cliPath args)]
  refine ⟨?_, ?_, ?_, ?_⟩
  · intro h
    unfold handle_call_tool
    rw [if_pos rfl]
    rw [show lookupKey [(pyStr "css_path", PyJson.str css),
        (pyStr "files", PyJson.arr (files.map .str))] (pyStr "css_path") =
        some (.str css) from rfl]
    rw [show lookupKey [(pyStr "css_path", PyJson.str css),
        (pyStr "files", PyJson.arr (files.map .str))] (pyStr "files") =
        some (.arr (files.map .str)) from rfl]
    simp only []
    rw [asStrList_map]
    simp only []
    rw [show lookupKey [(pyStr "css_path", PyJson.str css),
        (pyStr "files", PyJson.arr (files.map .str))] (pyStr "no_filter") = none from rfl]
    simp only [Option.getD_none]
    simp only [show pyTruthy (.bool false) = false from rfl]
    simp only [Bool.false_eq_true, if_false, List.append_nil]
    rw [hrun ([pyStr "--json", pyStr "--path", css] ++ files)]
    simp only []
    have hp : pyGetItem (.obj kvs) (pyStr "summary") =
        .error (39 :: (pyStr "summary" ++ [39])) := by
      unfold pyGetItem
      simp only []
      rw [h]
    rw [hp]
  · intro h1 h2
    obtain ⟨sv, hsv⟩ := Option.isSome_iff_exists.mp h1
    unfold handle_call_tool
    rw [if_pos rfl]
    rw [show lookupKey [(pyStr "css_path", PyJson.str css),
        (pyStr "files", PyJson.arr (files.map .str))] (pyStr "css_path") =
        some (.str css) from rfl]
    rw [show lookupKey [(pyStr "css_path", PyJson.str css),
        (pyStr "files", PyJson.arr (files.map .str))] (pyStr "files") =
        some (.arr (files.map .str)) from rfl]
    simp only []
    rw [asStrList_map]
    simp only []
    rw [show lookupKey [(pyStr "css_path", PyJson.str css),
        (pyStr "files", PyJson.arr (files.map .str))] (pyStr "no_filter") = none from rfl]
    simp only [Option.getD_none]
    simp only [show pyTruthy (.bool false) = false from rfl]
    simp only [Bool.false_eq_true, if_false, List.append_nil]
    rw [hrun ([pyStr "--json", pyStr "--path", css] ++ files)]
    simp only []
    have hp1 : pyGetItem (.obj kvs) (pyStr "summary") = .ok sv := by
      unfold pyGetItem
      simp only []
      rw [hsv]
    rw [hp1]
    simp only []
    have hp2 : pyGetItem (.obj kvs) (pyStr "invalidClasses") =
        .error (39 :: (pyStr "invalidClasses" ++ [39])) := by
      unfold pyGetItem
      simp only []
      rw [h2]
    rw [hp2]
  · intro h1 h2 h3
    obtain ⟨sv, hsv⟩ := Option.isSome_iff_exists.mp h1
    obtain ⟨iv, hiv⟩ := Option.isSome_iff_exists.mp h2
    unfold handle_call_tool
    rw [if_pos rfl]
    rw [show lookupKey [(pyStr "css_path", PyJson.str css),
        (pyStr "files", PyJson.arr (files.map .str))] (pyStr "css_path") =
        some (.str css) from rfl]
    rw [show lookupKey [(pyStr "css_path", PyJson.str css),
        (pyStr "files", PyJson.arr (files.map .str))] (pyStr "files") =
        some (.arr (files.map .str)) from rfl]
    simp only []
    rw [asStrList_map]
    simp only []
    rw [show lookupKey [(pyStr "css_path", PyJson.str css),
        (pyStr "files", PyJson.arr (files.map .str))] (pyStr "no_filter") = none from rfl]
    simp only [Option.getD_none]
    simp only [show pyTruthy (.bool false) = false from rfl]
    simp only [Bool.false_eq_true, if_false, List.append_nil]
    rw [hrun ([pyStr "--json", pyStr "--path", css] ++ files)]
    simp only []
    have hp1 : pyGetItem (.obj kvs) (pyStr "summary") = .ok sv := by
      unfold pyGetItem
      simp only []
      rw [hsv]
    rw [hp1]
    simp only []
    have hp2 : pyGetItem (.obj kvs) (pyStr "invalidClasses") = .ok iv := by
      unfold pyGetItem
      simp only []
      rw [hiv]
    rw [hp2]
    simp only []
    have hp3 : pyGetItem (.obj kvs) (pyStr "byFile") =
        .error (39 :: (pyStr "byFile" ++ [39])) := by
      unfold pyGetItem
      simp only []
      rw [h3]
    rw [hp3]
  · intro h1
    obtain ⟨sv, hsv⟩ := Option.isSome_iff_exists.mp h1
    unfold handle_call_tool
    rw [if_neg (by decide), if_pos rfl]
    rw [show lookupKey [(pyStr "css_path", PyJson.str css),
        (pyStr "file", PyJson.str file)] (pyStr "css_path") =
        some (.str css) from rfl]
    rw [show lookupKey [(pyStr "css_path", PyJson.str css),
        (pyStr "file", PyJson.str file)] (pyStr "file") =
        some (.str file) from rfl]
    simp only []
    rw [hrun [pyStr "--json", pyStr "--path", css, file]]
    simp only []
    have hp1 : pyGetItem (.obj kvs) (pyStr "summary") = .ok sv := by
      unfold pyGetItem
      simp only []
      rw [hsv]
    rw [hp1]

/-- Witness for C10: check_file replies with the document even though
byFile is missing. -/
theorem missing_keys_tool_replies_witness :
    handle_call_tool (pyStr "/cli.js")
      (fun _ => ⟨0, pyStr "\x7b\"summary\": null\x7d", []⟩)
      (pyStr "check_file")
      [(pyStr "css_path", .str (pyStr "a.css")), (pyStr "file", .str (pyStr "b.tsx"))] =
      .ok ([⟨jsonDumps2 (.obj [(pyStr "summary", .null)])⟩],
        [buildCmd (pyStr "/cli.js")
          [pyStr "--json", pyStr "--path", pyStr "a.css", pyStr "b.tsx"]]) :=
  (missing_keys_tool_replies (pyStr "/cli.js") (pyStr "a.css") (pyStr "b.tsx") []
    (fun _ => ⟨0, pyStr "\x7b\"summary\": null\x7d", []⟩)
    [(pyStr "summary", .null)] (fun _ => rfl) (fun _ => by rfl)).2.2.2 (by rfl)

/-!
## Location bounds for JSON parse errors (C6)
-/

/-- `takeWhile` of an append stops at a failing element that follows the
first part. -/
theorem takeWhile_app_stop (q : Nat → Bool) (xs ys : List Nat) (a : Nat)
    (h : q a = false) :
    List.takeWhile q (xs ++ a :: ys) = List.takeWhile q xs := by
  induction xs with
  | nil => simp [List.takeWhile_cons, h]
  | cons x xs ih =>
    simp only [List.cons_append, List.takeWhile_cons]
    rw [ih]

/-- Length bound for `takeWhile` across an append. -/
theorem takeWhile_app_le (q : Nat → Bool) (xs ys : List Nat) :
    (List.takeWhile q (xs ++ ys)).length ≤ (List.takeWhile q xs).length + ys.length := by
  induction xs with
  | nil =>
    simpa using (List.takeWhile_sublist q).length_le
  | cons x xs ih =>
    simp only [List.cons_append, List.takeWhile_cons]
    by_cases hx : q x = true
    · simp only [hx, if_true, List.length_cons]
      omega
    · simp [hx]

/-- `takeWhile` of an append ignores the second part when some element of
the first part already fails the predicate. -/
theorem takeWhile_app_of_stop_mem (q : Nat → Bool) (xs ys : List Nat)
    (h : ∃ a ∈ xs, q a = false) :
    List.takeWhile q (xs ++ ys) = List.takeWhile q xs := by
  induction xs with
  | nil => exact absurd h (by simp)
  | cons x xs ih =>
    simp only [List.cons_append, List.takeWhile_cons]
    by_cases hx : q x = true
    · obtain ⟨a, ha, hqa⟩ := h
      rcases List.mem_cons.mp ha with he | hm
      · rw [he] at hqa
        rw [hqa] at hx
        exact absurd hx (by decide)
      · rw [ih ⟨a, hm, hqa⟩]
    · simp [hx]

/-- `text.split('\n')` has one part per newline plus one. -/
theorem pySplitNl_length (s : PyStr) : (pySplitNl s).length = s.count 10 + 1 := by
  induction s with
  | nil => rfl
  | cons c t ih =>
    by_cases hc : c = 10
    · subst hc
      rw [show pySplitNl (10 :: t) = [] :: pySplitNl t from by
        rw [pySplitNl]
        rw [if_pos rfl]]
      rw [List.count_cons]
      simp only [List.length_cons, ih]
      simp
    · rcases hsp : pySplitNl t with _ | ⟨h0, r⟩
      · rw [hsp] at ih
        simp at ih
      · rw [show pySplitNl (c :: t) = (c :: h0) :: r from by
          rw [pySplitNl]
          rw [if_neg hc, hsp]]
        rw [hsp] at ih
        rw [List.count_cons]
        have h10 : (c == 10) = false := beq_eq_false_iff_ne.mpr hc
        simp only [h10, Bool.false_eq_true, if_false, Nat.add_zero, List.length_cons] at ih ⊢
        omega

/-- `split('\n')` is never empty. -/
theorem pySplitNl_ne_nil (s : PyStr) : pySplitNl s ≠ [] := by
  intro h
  have hl := pySplitNl_length s
  rw [h] at hl
  simp at hl

/-- The 1-based line number never exceeds the number of lines. -/
theorem jsonLineno_le (s : PyStr) (pos : Nat) :
    jsonLineno s pos ≤ (pySplitNl s).length := by
  rw [pySplitNl_length]
  unfold jsonLineno
  have hc : (s.take pos).count 10 ≤ s.count 10 := (List.take_sublist pos s).count_le 10
  omega

/-- The newline-free run ending at `pos` fits inside the line that
`jsonLineno` designates. -/
theorem colno_aux_le (s : PyStr) : ∀ pos : Nat,
    ((s.take pos).reverse.takeWhile (fun c => c != 10)).length ≤
      ((pySplitNl s).getD ((s.take pos).count 10) []).length := by
  induction s with
  | nil =>
    intro pos
    simp [pySplitNl]
  | cons c t ih =>
    intro pos
    match pos with
    | 0 => simp
    | p + 1 =>
      rw [List.take_succ_cons]
      by_cases hc : c = 10
      · subst hc
        rw [show pySplitNl (10 :: t) = [] :: pySplitNl t from by
        rw [pySplitNl]
        rw [if_pos rfl]]
        rw [List.reverse_cons]
        rw [takeWhile_app_stop (fun c => c != 10) ((t.take p).reverse) [] 10 (by decide)]
        rw [List.count_cons]
        simp only [show ((10 : Nat) == 10) = true from rfl, if_true]
        rw [List.getD_cons_succ]
        exact ih p
      · rcases hsp : pySplitNl t with _ | ⟨h0, r⟩
        · exact absurd hsp (pySplitNl_ne_nil t)
        · rw [show pySplitNl (c :: t) = (c :: h0) :: r from by
            rw [pySplitNl]
            rw [if_neg hc, hsp]]
          rw [List.reverse_cons, List.count_cons]
          have h10 : (c == 10) = false := beq_eq_false_iff_ne.mpr hc
          simp only [h10, Bool.false_eq_true, if_false, Nat.add_zero]
          rcases hcnt : (t.take p).count 10 with _ | k
          · rw [List.getD_cons_zero]
            have iht := ih p
            rw [hsp, hcnt, List.getD_cons_zero] at iht
            have happ := takeWhile_app_le (fun c => c != 10) ((t.take p).reverse) [c]
            simp only [List.length_cons, List.length_nil, List.length_reverse] at happ ⊢
            omega
          · have hmem : (10 : Nat) ∈ (t.take p).reverse := by
              rw [List.mem_reverse]
              exact List.count_pos_iff.mp (by omega)
            rw [takeWhile_app_of_stop_mem (fun c => c != 10) ((t.take p).reverse) [c]
              ⟨10, hmem, by decide⟩]
            rw [List.getD_cons_succ]
            have iht := ih p
            rw [hsp, hcnt, List.getD_cons_succ] at iht
            exact iht

/-- The 1-based column never exceeds the designated line's length plus
one. -/
theorem jsonColno_le (s : PyStr) (pos : Nat) :
    jsonColno s pos ≤ ((pySplitNl s).getD (jsonLineno s pos - 1) []).length + 1 := by
  unfold jsonColno jsonLineno
  simp only [Nat.add_sub_cancel]
  exact Nat.succ_le_succ (colno_aux_le s pos)

/-- The offending line is among the printed context lines whenever its
index is in range. -/
theorem debugContext_mem (s : PyStr) (L : Nat) (h : L ≤ (pySplitNl s).length) :
    (pySplitNl s).getD (L - 1) [] ∈ debugContextLines s L := by
  simp only [debugContextLines]
  rw [if_pos h]
  exact List.mem_append_left _ (List.mem_append_left _ (List.mem_singleton_self _))

/-- A parse error's character offset never exceeds the document length. -/
theorem jsonLoads_pos_le (s : PyStr) (m : String) (pos : Nat)
    (h : jsonLoads s = .error (m, pos)) : pos ≤ s.length := by
  unfold jsonLoads at h
  split at h
  · simp only [Except.error.injEq, Prod.mk.injEq] at h
    omega
  · split at h
    · exact Except.noConfusion h
    · simp only [Except.error.injEq, Prod.mk.injEq] at h
      omega

/-- C6 (amended): for any text that fails JSON decoding, the error offset is
at most the text's length, the 1-based line number indexes an existing split
line, the 1-based column is between 1 and that line's length plus one (so it
may point one past the line's last character), and the debug context lines
include the reported line, plus the previous line when the line number
exceeds 1 and the next line when one exists. -/
theorem parse_error_location (s : PyStr) (m : String) (pos : Nat)
    (h : jsonLoads s = .error (m, pos)) :
    pos ≤ s.length ∧
    1 ≤ jsonLineno s pos ∧ jsonLineno s pos ≤ (pySplitNl s).length ∧
    1 ≤ jsonColno s pos ∧
    jsonColno s pos ≤ ((pySplitNl s).getD (jsonLineno s pos - 1) []).length + 1 ∧
    (pySplitNl s).getD (jsonLineno s pos - 1) [] ∈
      debugContextLines s (jsonLineno s pos) ∧
    (1 < jsonLineno s pos →
      (pySplitNl s).getD (jsonLineno s pos - 2) [] ∈
        debugContextLines s (jsonLineno s pos)) ∧
    (jsonLineno s pos < (pySplitNl s).length →
      (pySplitNl s).getD (jsonLineno s pos) [] ∈
        debugContextLines s (jsonLineno s pos)) := by
  have hle := jsonLineno_le s pos
  refine ⟨jsonLoads_pos_le s m pos h, Nat.le_add_left 1 _, hle,
    Nat.le_add_left 1 _, jsonColno_le s pos, debugContext_mem s _ hle, ?_, ?_⟩
  · intro hgt
    simp only [debugContextLines]
    rw [if_pos hle, if_pos hgt]
    exact List.mem_append_left _ (List.mem_append_right _ (List.mem_singleton_self _))
  · intro hlt
    simp only [debugContextLines]
    rw [if_pos hle, if_pos hlt]
    exact List.mem_append_right _ (List.mem_singleton_self _)

/-- Witness for C6 on the truncated document. -/
theorem parse_error_location_witness :
    3 ≤ (pyStr "[1,").length ∧
    1 ≤ jsonLineno (pyStr "[1,") 3 ∧
      jsonLineno (pyStr "[1,") 3 ≤ (pySplitNl (pyStr "[1,")).length ∧
    1 ≤ jsonColno (pyStr "[1,") 3 ∧
    jsonColno (pyStr "[1,") 3 ≤
      ((pySplitNl (pyStr "[1,")).getD (jsonLineno (pyStr "[1,") 3 - 1) []).length + 1 ∧
    (pySplitNl (pyStr "[1,")).getD (jsonLineno (pyStr "[1,") 3 - 1) [] ∈
      debugContextLines (pyStr "[1,") (jsonLineno (pyStr "[1,") 3) ∧
    (1 < jsonLineno (pyStr "[1,") 3 →
      (pySplitNl (pyStr "[1,")).getD (jsonLineno (pyStr "[1,") 3 - 2) [] ∈
        debugContextLines (pyStr "[1,") (jsonLineno (pyStr "[1,") 3)) ∧
    (jsonLineno (pyStr "[1,") 3 < (pySplitNl (pyStr "[1,")).length →
      (pySplitNl (pyStr "[1,")).getD (jsonLineno (pyStr "[1,") 3) [] ∈
        debugContextLines (pyStr "[1,") (jsonLineno (pyStr "[1,") 3)) :=
  parse_error_location (pyStr "[1,") "Expecting value" 3 (by rfl)

/-- Counterexample to C6 as stated: decoding "\x7b" fails at offset 1 with
column 2, but the text is a single character on a single line of length 1 —
the reported column lies outside the text's bounds. -/
theorem parse_error_colno_outside :
    jsonLoads (pyStr "\x7b") =
      .error ("Expecting property name enclosed in double quotes", 1) ∧
    jsonLineno (pyStr "\x7b") 1 = 1 ∧
    jsonColno (pyStr "\x7b") 1 = 2 ∧
    (pyStr "\x7b").length = 1 ∧
    ((pySplitNl (pyStr "\x7b")).getD 0 []).length = 1 :=
  ⟨by rfl, by rfl, by rfl, by rfl, by rfl⟩

end Twlint
